import Mathlib

set_option maxHeartbeats 1000000

/-!
Verification development for the ArXiv API client
(`scientific-skills/arxiv-database/scripts/arxiv_client.py`).

The Python client is shallowly embedded: each helper of `ArxivClient` is
translated into an executable Lean definition over explicit data
(XML entry elements become records of `Option` fields, the network is a
script of attempt outcomes, wall-clock time is a rational number threaded
through the rate limiter, the file cache is an association list).
Machine-level library calls of the source (`hashlib.md5`, `json.dumps`,
UTF-8 encoding) are implemented concretely below.
-/

namespace Arxiv

/-! ## Python whitespace and string primitives -/

/-- Whitespace characters recognised by Python's `str.strip` and the regex
class `\s` over the ASCII range handled by the client. -/
def isPyWs (c : Char) : Bool :=
  c = ' ' || c = '\t' || c = '\n' || c = '\r' || c = '\x0b' || c = '\x0c'

/-- Python `str.strip()` on a character list: drop whitespace from both ends. -/
def pyStripL (l : List Char) : List Char :=
  ((l.dropWhile isPyWs).reverse.dropWhile isPyWs).reverse

/-- Python `re.sub(r'\s+', ' ', s)`: every maximal run of whitespace becomes
a single space character.  Within a run, all but the final whitespace
character are dropped and the final one becomes a space. -/
def collapseWsAux : List Char → List Char
  | [] => []
  | [c] => if isPyWs c then [' '] else [c]
  | c1 :: c2 :: rest =>
    if isPyWs c1 && isPyWs c2 then collapseWsAux (c2 :: rest)
    else if isPyWs c1 then ' ' :: collapseWsAux (c2 :: rest)
    else c1 :: collapseWsAux (c2 :: rest)

/-- Python `s.replace('\n', ' ')` (single-character replacement). -/
def nlToSpace (l : List Char) : List Char :=
  l.map fun c => if c = '\n' then ' ' else c

/-- Title normalisation of `_parse_entry`:
`title_elem.text.strip().replace('\n', ' ')` followed by
`re.sub(r'\s+', ' ', title)`. -/
def normTitle (s : String) : String :=
  ⟨collapseWsAux (nlToSpace (pyStripL s.data))⟩

/-- Abstract normalisation of `_parse_entry`:
`summary_elem.text.strip()` followed by `re.sub(r'\s+', ' ', abstract)`. -/
def normAbstract (s : String) : String :=
  ⟨collapseWsAux (pyStripL s.data)⟩

/-- Python `url.split('/')[-1]`: the characters after the last slash. -/
def lastSegL (l : List Char) : List Char :=
  (l.reverse.takeWhile (fun c => c != '/')).reverse

/-- Python `re.sub(r'v\d+$', '', s)`: remove a trailing `v<digits>` suffix.
The regex must match up to the end of the string, so the only possible match
starts at the character directly before the maximal trailing digit run. -/
def stripVersionL (l : List Char) : List Char :=
  let r := l.reverse
  let ds := r.takeWhile Char.isDigit
  if ds.isEmpty then l
  else
    match r.drop ds.length with
    | 'v' :: rest => rest.reverse
    | _ => l

/-- Python `s.replace(pat, repl)` for the single-character patterns the
client uses: replace each occurrence of `pat`, scanning left to right. -/
def replaceCharL (pat : Char) (repl : List Char) : List Char → List Char
  | [] => []
  | c :: t =>
    if c = pat then repl ++ replaceCharL pat repl t
    else c :: replaceCharL pat repl t

/-- Truthiness of a Python `str | None` value. -/
def pyTruthyStr : Option String → Bool
  | none => false
  | some s => !s.data.isEmpty

/-! ## Dates

A model of `datetime.fromisoformat` restricted to the timestamp shapes the
ArXiv feed produces (`YYYY-MM-DD` optionally followed by `THH:MM:SS` and a
`+HH:MM`/`-HH:MM` offset); calendar day validation is simplified to `1..31`.
A failed parse is `none`, matching the `ValueError` the source catches. -/

structure PyDateTime where
  year : Nat
  month : Nat
  day : Nat
  hour : Nat
  minute : Nat
  second : Nat
  tz : Option (Bool × Nat × Nat)
deriving DecidableEq

def digitVal (c : Char) : Nat := c.toNat - 48

def allDigits (l : List Char) : Bool := l.all Char.isDigit

def natOfDigitsL (l : List Char) : Nat :=
  l.foldl (fun a c => 10 * a + digitVal c) 0

def parseTz : List Char → Option (Option (Bool × Nat × Nat))
  | [] => some none
  | ['+', h1, h2, ':', m1, m2] =>
    if allDigits [h1, h2, m1, m2] then
      some (some (true, natOfDigitsL [h1, h2], natOfDigitsL [m1, m2]))
    else none
  | ['-', h1, h2, ':', m1, m2] =>
    if allDigits [h1, h2, m1, m2] then
      some (some (false, natOfDigitsL [h1, h2], natOfDigitsL [m1, m2]))
    else none
  | _ => none

def parseTime : List Char → Option (Nat × Nat × Nat × Option (Bool × Nat × Nat))
  | 'T' :: h1 :: h2 :: ':' :: mi1 :: mi2 :: ':' :: s1 :: s2 :: rest =>
    if allDigits [h1, h2, mi1, mi2, s1, s2] then
      let h := natOfDigitsL [h1, h2]
      let mi := natOfDigitsL [mi1, mi2]
      let sec := natOfDigitsL [s1, s2]
      if h < 24 && mi < 60 && sec < 60 then
        (parseTz rest).map fun tz => (h, mi, sec, tz)
      else none
    else none
  | _ => none

def fromIso? (s : String) : Option PyDateTime :=
  match s.data with
  | y1 :: y2 :: y3 :: y4 :: '-' :: mo1 :: mo2 :: '-' :: d1 :: d2 :: rest =>
    if allDigits [y1, y2, y3, y4, mo1, mo2, d1, d2] then
      let y := natOfDigitsL [y1, y2, y3, y4]
      let mo := natOfDigitsL [mo1, mo2]
      let d := natOfDigitsL [d1, d2]
      if 1 ≤ mo && mo ≤ 12 && 1 ≤ d && d ≤ 31 then
        match rest with
        | [] => some ⟨y, mo, d, 0, 0, 0, none⟩
        | _ => (parseTime rest).map fun t => ⟨y, mo, d, t.1, t.2.1, t.2.2.1, t.2.2.2⟩
      else none
    else none
  | _ => none

def digitChar10 : Nat → Char
  | 0 => '0' | 1 => '1' | 2 => '2' | 3 => '3' | 4 => '4'
  | 5 => '5' | 6 => '6' | 7 => '7' | 8 => '8' | _ => '9'

/-- Decimal rendering of a natural number (`repr` of a Python int). -/
def renderNatL (n : Nat) : List Char :=
  if n = 0 then ['0']
  else (Nat.digits 10 n).reverse.map digitChar10

def padZeroL (w : Nat) (l : List Char) : List Char :=
  List.replicate (w - l.length) '0' ++ l

/-- Python `dt.strftime('%Y-%m-%d')`. -/
def strfDate (dt : PyDateTime) : String :=
  ⟨padZeroL 4 (renderNatL dt.year) ++ '-' :: padZeroL 2 (renderNatL dt.month) ++
    '-' :: padZeroL 2 (renderNatL dt.day)⟩

/-- Python `dt.isoformat()` for second-resolution datetimes. -/
def isoRender (dt : PyDateTime) : String :=
  let tzPart : List Char :=
    match dt.tz with
    | none => []
    | some (sgn, h, m) =>
      (if sgn then '+' else '-') :: padZeroL 2 (renderNatL h) ++ ':' :: padZeroL 2 (renderNatL m)
  ⟨(strfDate dt).data ++ 'T' :: padZeroL 2 (renderNatL dt.hour) ++
    ':' :: padZeroL 2 (renderNatL dt.minute) ++ ':' :: padZeroL 2 (renderNatL dt.second) ++ tzPart⟩

/-! ## XML entry model

An Atom `entry` element as `_parse_entry` observes it.  A child element is
`none` when absent; when present it carries its text, which is itself
`Option String` because ElementTree gives `elem.text = None` for an empty
element.  Attributes read with `elem.get` are plain `Option String`. -/

structure AuthorElem where
  name? : Option (Option String)
  affiliation? : Option (Option String)
deriving DecidableEq

structure LinkElem where
  rel? : Option String
  href? : Option String
  type? : Option String
deriving DecidableEq

structure XmlEntry where
  id? : Option (Option String)
  title? : Option (Option String)
  authors : List AuthorElem
  summary? : Option (Option String)
  published? : Option (Option String)
  updated? : Option (Option String)
  primaryCategory? : Option (Option String)
  categories : List (Option String)
  links : List LinkElem
  doi? : Option (Option String)
  journalRef? : Option (Option String)
  comment? : Option (Option String)
deriving DecidableEq

/-- The dictionary returned by `_parse_entry`. -/
structure Paper where
  arxiv_id : String
  base_id : String
  title : String
  authors : List (Option String)
  affiliations : List (Option String)
  abstract : String
  published : String
  published_datetime : Option String
  updated : String
  updated_datetime : Option String
  primary_category : Option String
  categories : List (Option String)
  doi : Option String
  journal_ref : Option String
  comment : Option String
  arxiv_url : String
  pdf_url : String
  links : List (String × String)
deriving DecidableEq

/-- Python dict assignment `d[k] = v`: overwrite in place, else append. -/
def dictInsert (d : List (String × String)) (k v : String) : List (String × String) :=
  if d.any (fun kv => kv.1 = k) then d.map fun kv => if kv.1 = k then (k, v) else kv
  else d ++ [(k, v)]

/-- Python dict lookup `d.get(k)`. -/
def dictGet? (d : List (String × String)) (k : String) : Option String :=
  (d.find? (fun kv => kv.1 = k)).map Prod.snd

/-- The `elem.text if elem is not None else ""` idiom: absent element gives
the string `""`, present element gives its (possibly `None`) text. -/
def optText (x : Option (Option String)) : Option String :=
  match x with
  | none => some ""
  | some t => t

/-- Author loop of `_parse_entry`: for each `author` element whose `name`
child exists, append its text (possibly `None`). -/
def entryAuthors (e : XmlEntry) : List (Option String) :=
  e.authors.filterMap fun a => a.name?

def entryAffils (e : XmlEntry) : List (Option String) :=
  e.authors.filterMap fun a => a.affiliation?

/-- Link loop of `_parse_entry`: media type `application/pdf` is keyed `pdf`,
otherwise relation `alternate` is keyed `abstract`, otherwise the relation is
its own key. -/
def linkStep (d : List (String × String)) (link : LinkElem) : List (String × String) :=
  let rel := link.rel?.getD "alternate"
  let href := link.href?.getD ""
  let ltype := link.type?.getD ""
  if ltype = "application/pdf" then dictInsert d "pdf" href
  else if rel = "alternate" then dictInsert d "abstract" href
  else dictInsert d rel href

def entryLinks (e : XmlEntry) : List (String × String) :=
  e.links.foldl linkStep []

/-- The field computations of `_parse_entry`, assuming no raise is triggered
(see `entryRaise?`). -/
def buildPaper (e : XmlEntry) : Paper :=
  let arxiv_url : Option String := optText e.id?
  let arxiv_id : String :=
    if pyTruthyStr arxiv_url then ⟨lastSegL (arxiv_url.getD "").data⟩ else ""
  let base_id : String := ⟨stripVersionL arxiv_id.data⟩
  let title : String :=
    match e.title? with
    | some (some t) => normTitle t
    | _ => ""
  let abstract : String :=
    match e.summary? with
    | some (some t) => normAbstract t
    | _ => ""
  let published : String := (optText e.published?).getD ""
  let published_dt := fromIso? ⟨replaceCharL 'Z' ("+00:00".data) published.data⟩
  let updated : String := (optText e.updated?).getD ""
  let updated_dt := fromIso? ⟨replaceCharL 'Z' ("+00:00".data) updated.data⟩
  let primary_category : Option String :=
    match e.primaryCategory? with
    | none => some ""
    | some t => t
  { arxiv_id := arxiv_id
    base_id := base_id
    title := title
    authors := entryAuthors e
    affiliations := entryAffils e
    abstract := abstract
    published := match published_dt with | some dt => strfDate dt | none => ""
    published_datetime := published_dt.map isoRender
    updated := match updated_dt with | some dt => strfDate dt | none => ""
    updated_datetime := updated_dt.map isoRender
    primary_category := primary_category
    categories := e.categories
    doi := e.doi?.join
    journal_ref := e.journalRef?.join
    comment := e.comment?.join
    arxiv_url := "https://arxiv.org/abs/" ++ base_id
    pdf_url := "https://arxiv.org/pdf/" ++ base_id ++ ".pdf"
    links := entryLinks e }

/-- The raise points of `_parse_entry` in source order.  A present element
with `None` text hits attribute access on `None` (`.strip()` for
title/summary, `.replace` for published/updated) and the resulting
`AttributeError` propagates; every other field access is guarded.  The checks
preceding each raise point are pure, so `_parse_entry` raises exactly when
the first such element exists, and otherwise returns `buildPaper`. -/
def entryRaise? (e : XmlEntry) : Option String :=
  if e.title? = some none then some "AttributeError: NoneType title"
  else if e.summary? = some none then some "AttributeError: NoneType summary"
  else if e.published? = some none then some "AttributeError: NoneType published"
  else if e.updated? = some none then some "AttributeError: NoneType updated"
  else none

/-- `ArxivClient._parse_entry`. -/
def parseEntry (e : XmlEntry) : Except String Paper :=
  match entryRaise? e with
  | some msg => .error msg
  | none => .ok (buildPaper e)

/-- The comprehension `[self._parse_entry(entry) for entry in entries]`. -/
def parseEntries (es : List XmlEntry) : Except String (List Paper) :=
  es.mapM parseEntry

/-! ## The request loop of `_make_request` (lines 212-262)

The network is a script assigning to each zero-indexed attempt the outcome of
`requests.get`: a timeout, a connection error, or a response with a status
code and (for status 200) a payload that is either unparseable XML or a list
of entries.  The function returns the surfaced result, the list of backoff
`time.sleep` durations in seconds (the rate-limit wait of `_rate_limit` is a
separate primitive, modelled below), and the number of attempts performed.
The cache short-circuit at the top of `_make_request` is modelled separately
as `getCached`/`setCached`; this loop is the cache-miss path. -/

inductive XmlPayload where
  | malformed
  | entries (es : List XmlEntry)
deriving DecidableEq

inductive AttemptOutcome where
  | timeout
  | connError
  | response (status : Nat) (body : XmlPayload)
deriving DecidableEq

/-- The exceptions `_make_request` can surface, by source line:
`apiError` (226), `httpError` via `raise_for_status` (241), `timedOut` (249),
`connFailed` (257), `parseFailed` (260), `failedAfter` (262), and
`entryError` for an `AttributeError` escaping `_parse_entry` (line 228). -/
inductive ReqError where
  | apiError (title : String)
  | httpError (status : Nat)
  | timedOut (retries : Nat)
  | connFailed (retries : Nat)
  | parseFailed
  | failedAfter (retries : Nat)
  | entryError (msg : String)
deriving DecidableEq

inductive ReqResult where
  | ok (papers : List Paper)
  | error (e : ReqError)
deriving DecidableEq

/-- Python substring test `pat in s`. -/
def containsSub (s pat : List Char) : Bool :=
  match s with
  | [] => pat.isEmpty
  | _ :: t => pat.isPrefixOf s || containsSub t pat

/-- Error-response heuristic of lines 222-226: a single entry whose `title`
element exists with truthy text containing the literal substring `Error`. -/
def isApiErrorEntries (es : List XmlEntry) : Option String :=
  match es with
  | [e] =>
    match e.title? with
    | some (some t) => if !t.isEmpty && containsSub t.data ("Error".data) then some t else none
    | _ => none
  | _ => none

/-- One pass of the `for attempt in range(self.max_retries)` loop plus the
terminal raise after it.  `fuel` is `maxRetries - attempt` and drives
termination; all tests are written exactly as in the source. -/
def makeRequestAux (script : Nat → AttemptOutcome) (maxRetries : Nat) :
    Nat → Nat → List Nat → Nat → ReqResult × List Nat × Nat
  | 0, _, sleeps, attempts => (.error (.failedAfter maxRetries), sleeps, attempts)
  | fuel + 1, attempt, sleeps, attempts =>
    match script attempt with
    | .timeout =>
      if attempt < maxRetries - 1 then
        makeRequestAux script maxRetries fuel (attempt + 1) (sleeps ++ [2 ^ attempt]) (attempts + 1)
      else (.error (.timedOut maxRetries), sleeps, attempts + 1)
    | .connError =>
      if attempt < maxRetries - 1 then
        makeRequestAux script maxRetries fuel (attempt + 1) (sleeps ++ [2 ^ attempt]) (attempts + 1)
      else (.error (.connFailed maxRetries), sleeps, attempts + 1)
    | .response status body =>
      if status = 200 then
        match body with
        | .malformed => (.error .parseFailed, sleeps, attempts + 1)
        | .entries es =>
          match isApiErrorEntries es with
          | some t => (.error (.apiError t), sleeps, attempts + 1)
          | none =>
            match parseEntries es with
            | .error msg => (.error (.entryError msg), sleeps, attempts + 1)
            | .ok papers => (.ok papers, sleeps, attempts + 1)
      else if 500 ≤ status then
        makeRequestAux script maxRetries fuel (attempt + 1) (sleeps ++ [2 ^ attempt]) (attempts + 1)
      else if 400 ≤ status then (.error (.httpError status), sleeps, attempts + 1)
      else
        makeRequestAux script maxRetries fuel (attempt + 1) sleeps (attempts + 1)

/-- `ArxivClient._make_request` on a cache miss, returning the surfaced
result, the backoff sleeps, and how many attempts were made. -/
def makeRequest (script : Nat → AttemptOutcome) (maxRetries : Nat) :
    ReqResult × List Nat × Nat :=
  makeRequestAux script maxRetries maxRetries 0 [] 0

/-- An outcome the source treats as transient: timeout, connection error, or
server error status at least 500. -/
def isTransient : AttemptOutcome → Bool
  | .timeout => true
  | .connError => true
  | .response status _ => 500 ≤ status

/-- The backoff schedule `1, 2, 4, ..., 2^(k-1)`. -/
def backoffs (k : Nat) : List Nat :=
  (List.range k).map (2 ^ ·)

/-- The terminal error surfaced when every attempt failed transiently; it is
determined by the cause of the final attempt. -/
def exhaustError (o : AttemptOutcome) (maxRetries : Nat) : ReqError :=
  match o with
  | .timeout => .timedOut maxRetries
  | .connError => .connFailed maxRetries
  | .response _ _ => .failedAfter maxRetries

/-- The backoff sleeps performed when every attempt failed transiently: a
server error sleeps even on the final attempt, a timeout or connection error
does not. -/
def exhaustSleeps (o : AttemptOutcome) (maxRetries : Nat) : List Nat :=
  match o with
  | .timeout => backoffs (maxRetries - 1)
  | .connError => backoffs (maxRetries - 1)
  | .response _ _ => backoffs maxRetries

/-- Number of backoff sleeps in a fully transient run with `fuel` remaining
attempts, by the kind of the final outcome. -/
def exhaustLen (o : AttemptOutcome) (fuel : Nat) : Nat :=
  match o with
  | .response _ _ => fuel
  | _ => fuel - 1

/-! ## The rate limiter `_rate_limit` (lines 60-65)

Wall-clock time is a rational number.  `time.sleep(d)` advances the clock by
exactly `d` and `time.time()` reads it, an idealised clock under which the
source's lower bounds are exact.  The state is the pair
(current time, `self.last_request_time`). -/

/-- One call of `_rate_limit`: given the configured delay, the stored
`last_request_time` and the current clock, return the clock when the call
returns together with the new `last_request_time` (which the source sets to
`time.time()` after the optional sleep). -/
def rateLimitStep (delay last now : ℚ) : ℚ × ℚ :=
  let elapsed := now - last
  let now' := if elapsed < delay then now + (delay - elapsed) else now
  (now', now')

/-- Return clock of the n-th of a run of consecutive `_rate_limit` calls:
the first call starts at clock `now0` with stored time `last0`, and the
caller spends `gap i` seconds between the return of call `i` and the start
of call `i + 1`. -/
def acquireClock (delay : ℚ) (gap : Nat → ℚ) (last0 now0 : ℚ) : Nat → ℚ
  | 0 => (rateLimitStep delay last0 now0).1
  | n + 1 =>
    let prev := acquireClock delay gap last0 now0 n
    (rateLimitStep delay prev (prev + gap n)).1

/-! ## The cache `_get_cached` / `_set_cached` (lines 67-101)

One JSON file per key in the configured directory, holding a timestamp and
the result list.  The directory is a flag plus an association list from key
to (timestamp, results); `cacheDir = false` is the `cache_dir=None`
configuration.  Timestamps are rationals, `ttl` is `self.cache_ttl`. -/

structure CacheState (α : Type) where
  cacheDir : Bool
  entries : List (String × ℚ × α)

/-- `ArxivClient._get_cached`: a hit needs a configured directory, an
existing file, and `now - cached_time < ttl` (strict). -/
def getCached {α : Type} (st : CacheState α) (ttl now : ℚ) (key : String) : Option α :=
  if st.cacheDir then
    match st.entries.lookup key with
    | some (ts, res) => if now - ts < ttl then some res else none
    | none => none
  else none

/-- Overwrite-or-append for the per-key cache file. -/
def cachePut {α : Type} (entries : List (String × ℚ × α)) (key : String) (ts : ℚ) (res : α) :
    List (String × ℚ × α) :=
  if entries.any (fun kv => kv.1 = key) then
    entries.map fun kv => if kv.1 = key then (key, ts, res) else kv
  else entries ++ [(key, ts, res)]

/-- `ArxivClient._set_cached`: a no-op without a configured directory,
otherwise store the results under the current timestamp. -/
def setCached {α : Type} (st : CacheState α) (now : ℚ) (key : String) (res : α) :
    CacheState α :=
  if st.cacheDir then { st with entries := cachePut st.entries key now res } else st

/-! ## Pagination `paginate_all` (lines 460-506)

The upstream pages are a script: the list of successive `search` results at
offsets `0, pageSize, 2 * pageSize, ...`.  The function returns the
accumulated papers and the number of `search` calls issued.  The source
keeps requesting until a stop condition fires, so each theorem's script
covers the whole run; an exhausted script (never reached in the theorems
below) just returns the accumulator. -/

/-- Python truthiness test `if max_results and len(all_papers) >= max_results`. -/
def truncReached (maxResults : Option Nat) (len : Nat) : Bool :=
  match maxResults with
  | some m => 0 < m && m ≤ len
  | none => false

def paginateAux {α : Type} (pageSize : Nat) (maxResults : Option Nat) :
    List (List α) → List α → List α × Nat
  | [], acc => (acc, 0)
  | page :: rest, acc =>
    if page.isEmpty then (acc, 1)
    else
      let acc' := acc ++ page
      if truncReached maxResults acc'.length then (acc'.take (maxResults.getD 0), 1)
      else if page.length < pageSize then (acc', 1)
      else
        let r := paginateAux pageSize maxResults rest acc'
        (r.1, r.2 + 1)

/-- `ArxivClient.paginate_all` over a scripted page sequence. -/
def paginateAll {α : Type} (pageSize : Nat) (maxResults : Option Nat)
    (pages : List (List α)) : List α × Nat :=
  paginateAux pageSize maxResults pages []

/-! ## Identifier cleaning `_clean_arxiv_id` (lines 508-521)

The two `re.search` calls are specialised matchers.  Both scan for the
leftmost `/`-anchored match.  For the new-format pattern
`/(\d{4}\.\d{4,5})` the quantifier `{4,5}` is greedy, so a fifth digit is
taken exactly when present.  For the old-format pattern `/([a-z-]+/\d{7})`
the greedy `[a-z-]+` run cannot usefully backtrack (a shorter run is
followed by a class character, never `/`), so it is the maximal run. -/

/-- Match `\d{4}\.\d{4,5}` at the head of the list (the capture group of the
new-format pattern, after the anchoring slash).  The checks are staged one
character at a time so that a mismatch fails without examining the rest of
the list. -/
def tryNew : List Char → Option (List Char)
  | a :: l1 =>
    if a.isDigit then
      match l1 with
      | b :: l2 =>
        if b.isDigit then
          match l2 with
          | c :: l3 =>
            if c.isDigit then
              match l3 with
              | d :: l4 =>
                if d.isDigit then
                  match l4 with
                  | dot :: l5 =>
                    if dot = '.' then
                      match l5 with
                      | e :: l6 =>
                        if e.isDigit then
                          match l6 with
                          | f :: l7 =>
                            if f.isDigit then
                              match l7 with
                              | g :: l8 =>
                                if g.isDigit then
                                  match l8 with
                                  | h :: l9 =>
                                    if h.isDigit then
                                      match l9 with
                                      | i :: _ =>
                                        if i.isDigit then
                                          some [a, b, c, d, '.', e, f, g, h, i]
                                        else some [a, b, c, d, '.', e, f, g, h]
                                      | [] => some [a, b, c, d, '.', e, f, g, h]
                                    else none
                                  | [] => none
                                else none
                              | [] => none
                            else none
                          | [] => none
                        else none
                      | [] => none
                    else none
                  | [] => none
                else none
              | [] => none
            else none
          | [] => none
        else none
      | [] => none
    else none
  | [] => none

/-- Leftmost occurrence of `/(\d{4}\.\d{4,5})`; returns the capture group. -/
def matchNewL : List Char → Option (List Char)
  | [] => none
  | c :: rest =>
    if c = '/' then
      match tryNew rest with
      | some g => some g
      | none => matchNewL rest
    else matchNewL rest

def inOldClass (c : Char) : Bool :=
  ('a' ≤ c && c ≤ 'z') || c = '-'

/-- Match `[a-z-]+/\d{7}` at the head of the list (the capture group of the
old-format pattern, after the anchoring slash). -/
def tryOld (l : List Char) : Option (List Char) :=
  let run := l.takeWhile inOldClass
  if run.isEmpty then none
  else
    match l.drop run.length with
    | '/' :: rest =>
      let ds := rest.take 7
      if ds.all Char.isDigit && ds.length = 7 then some (run ++ '/' :: ds) else none
    | _ => none

/-- Leftmost occurrence of `/([a-z-]+/\d{7})`; returns the capture group. -/
def matchOldL : List Char → Option (List Char)
  | [] => none
  | c :: rest =>
    if c = '/' then
      match tryOld rest with
      | some g => some g
      | none => matchOldL rest
    else matchOldL rest

/-- `ArxivClient._clean_arxiv_id` on the character list of the input. -/
def cleanArxivIdL (l : List Char) : List Char :=
  if containsSub l ("arxiv.org".data) then
    match matchNewL l with
    | some g => g
    | none =>
      match matchOldL l with
      | some g => g
      | none => stripVersionL l
  else stripVersionL l

/-- `ArxivClient._clean_arxiv_id`. -/
def cleanArxivId (s : String) : String :=
  ⟨cleanArxivIdL s.data⟩

/-! ## Cache keys: `json.dumps(params, sort_keys=True)` and `hashlib.md5`
(lines 67-70)

Parameter dictionaries are association lists of string keys and
string-or-int values (the only value types the client uses).  `sort_keys`
sorts by key (Python's stable sort; keys are unique in a dict, so any stable
sort by key gives the canonical order), and the serialisation uses the
default separators `", "` and `": "`.  The digest is a full MD5
implementation (RFC 1321) over the UTF-8 bytes. -/

inductive JVal where
  | jstr (s : String)
  | jnat (n : Nat)
deriving DecidableEq

/-- JSON string escaping for the character set the client's parameters use. -/
def escChar (c : Char) : List Char :=
  if c = '"' then ['\\', '"']
  else if c = '\\' then ['\\', '\\']
  else if c = '\n' then ['\\', 'n']
  else if c = '\t' then ['\\', 't']
  else if c = '\r' then ['\\', 'r']
  else [c]

def escStr (s : String) : List Char :=
  (s.data.map escChar).flatten

def renderJVal : JVal → List Char
  | .jstr s => '"' :: escStr s ++ ['"']
  | .jnat n => renderNatL n

def renderPiece (kv : String × JVal) : List Char :=
  '"' :: escStr kv.1 ++ '"' :: ':' :: ' ' :: renderJVal kv.2

def joinPieces : List (List Char) → List Char
  | [] => []
  | [p] => p
  | p :: rest => p ++ ',' :: ' ' :: joinPieces rest

/-- Key order used by `sort_keys=True`. -/
def keyLE (a b : String × JVal) : Prop := a.1 ≤ b.1

instance : DecidableRel keyLE := fun a b => inferInstanceAs (Decidable (a.1 ≤ b.1))

instance : IsTotal (String × JVal) keyLE := ⟨fun a b => le_total a.1 b.1⟩

instance : IsTrans (String × JVal) keyLE := ⟨fun _ _ _ => le_trans⟩

/-- Strict key order; used to show the sorted parameter list is unique when
keys are distinct. -/
def keyLT (a b : String × JVal) : Prop := a.1 < b.1

instance : IsAntisymm (String × JVal) keyLT := by
  constructor
  intro a b h1 h2
  simp only [keyLT] at h1 h2
  exact absurd h2 (lt_asymm h1)

/-- Stable sort by key, as `sort_keys=True` orders a dict's items. -/
def sortParams (l : List (String × JVal)) : List (String × JVal) :=
  List.insertionSort keyLE l

/-- `json.dumps(params, sort_keys=True)`. -/
def dumpsParams (l : List (String × JVal)) : String :=
  ⟨'\x7b' :: joinPieces ((sortParams l).map renderPiece) ++ ['\x7d']⟩

/-- UTF-8 encoding of one character (`str.encode`). -/
def utf8EncodeChar (c : Char) : List Nat :=
  let n := c.toNat
  if n < 128 then [n]
  else if n < 2048 then [192 + n / 64, 128 + n % 64]
  else if n < 65536 then [224 + n / 4096, 128 + n / 64 % 64, 128 + n % 64]
  else [240 + n / 262144, 128 + n / 4096 % 64, 128 + n / 64 % 64, 128 + n % 64]

def strBytes (s : String) : List Nat :=
  (s.data.map utf8EncodeChar).flatten

def M32 : Nat := 4294967296

def add32 (a b : Nat) : Nat := (a + b) % M32

def not32 (x : Nat) : Nat := x ^^^ 4294967295

def rotl32 (x s : Nat) : Nat :=
  ((x % M32) * 2 ^ s) % M32 ||| (x % M32) / 2 ^ (32 - s)

/-- The 64 sine-derived MD5 round constants of RFC 1321. -/
def md5K : List Nat :=
  [3614090360, 3905402710, 606105819, 3250441966, 4118548399, 1200080426, 2821735955, 4249261313,
   1770035416, 2336552879, 4294925233, 2304563134, 1804603682, 4254626195, 2792965006, 1236535329,
   4129170786, 3225465664, 643717713, 3921069994, 3593408605, 38016083, 3634488961, 3889429448,
   568446438, 3275163606, 4107603335, 1163531501, 2850285829, 4243563512, 1735328473, 2368359562,
   4294588738, 2272392833, 1839030562, 4259657740, 2763975236, 1272893353, 4139469664, 3200236656,
   681279174, 3936430074, 3572445317, 76029189, 3654602809, 3873151461, 530742520, 3299628645,
   4096336452, 1126891415, 2878612391, 4237533241, 1700485571, 2399980690, 4293915773, 2240044497,
   1873313359, 4264355552, 2734768916, 1309151649, 4149444226, 3174756917, 718787259, 3951481745]

/-- The per-round left-rotation amounts of RFC 1321. -/
def md5S : List Nat :=
  [7, 12, 17, 22, 7, 12, 17, 22, 7, 12, 17, 22, 7, 12, 17, 22,
   5, 9, 14, 20, 5, 9, 14, 20, 5, 9, 14, 20, 5, 9, 14, 20,
   4, 11, 16, 23, 4, 11, 16, 23, 4, 11, 16, 23, 4, 11, 16, 23,
   6, 10, 15, 21, 6, 10, 15, 21, 6, 10, 15, 21, 6, 10, 15, 21]

def md5F (i b c d : Nat) : Nat :=
  if i < 16 then (b &&& c) ||| (not32 b &&& d)
  else if i < 32 then (d &&& b) ||| (not32 d &&& c)
  else if i < 48 then b ^^^ c ^^^ d
  else c ^^^ (b ||| not32 d)

def md5G (i : Nat) : Nat :=
  if i < 16 then i
  else if i < 32 then (5 * i + 1) % 16
  else if i < 48 then (3 * i + 5) % 16
  else (7 * i) % 16

/-- Little-endian 32-bit word `j` of a 64-byte block. -/
def wordAt (block : List Nat) (j : Nat) : Nat :=
  block.getD (4 * j) 0 + 256 * block.getD (4 * j + 1) 0 +
    65536 * block.getD (4 * j + 2) 0 + 16777216 * block.getD (4 * j + 3) 0

def md5Round (block : List Nat) (st : Nat × Nat × Nat × Nat) (i : Nat) :
    Nat × Nat × Nat × Nat :=
  let f := (md5F i st.2.1 st.2.2.1 st.2.2.2 + st.1 + md5K.getD i 0 +
    wordAt block (md5G i)) % M32
  (st.2.2.2, add32 st.2.1 (rotl32 f (md5S.getD i 0)), st.2.1, st.2.2.1)

def processBlock (st : Nat × Nat × Nat × Nat) (block : List Nat) :
    Nat × Nat × Nat × Nat :=
  let r := (List.range 64).foldl (md5Round block) st
  (add32 st.1 r.1, add32 st.2.1 r.2.1, add32 st.2.2.1 r.2.2.1, add32 st.2.2.2 r.2.2.2)

def lenBytesLE (n : Nat) : List Nat :=
  (List.range 8).map fun i => n / 256 ^ i % 256

/-- MD5 padding: `0x80`, zeros to 56 mod 64, then the 64-bit little-endian
bit length. -/
def md5Pad (msg : List Nat) : List Nat :=
  let zeros := (119 - msg.length % 64) % 64
  msg ++ 128 :: List.replicate zeros 0 ++ lenBytesLE (msg.length * 8)

def chunks64 : List Nat → List (List Nat)
  | [] => []
  | a :: rest => (a :: rest).take 64 :: chunks64 (rest.drop 63)
termination_by l => l.length
decreasing_by
  exact Nat.lt_succ_of_le (le_trans (List.length_drop 63 rest ▸ Nat.sub_le _ _) le_rfl)

def md5Init : Nat × Nat × Nat × Nat :=
  (1732584193, 4023233417, 2562383102, 271733878)

def md5Words (msg : List Nat) : Nat × Nat × Nat × Nat :=
  (chunks64 (md5Pad msg)).foldl processBlock md5Init

def bytesLE32 (w : Nat) : List Nat :=
  [w % 256, w / 256 % 256, w / 65536 % 256, w / 16777216 % 256]

def md5BytesOf (msg : List Nat) : List Nat :=
  let ws := md5Words msg
  bytesLE32 ws.1 ++ bytesLE32 ws.2.1 ++ bytesLE32 ws.2.2.1 ++ bytesLE32 ws.2.2.2

def hexDigit (n : Nat) : Char :=
  if n < 10 then Char.ofNat (48 + n) else Char.ofNat (87 + n)

/-- `hashlib.md5(s.encode()).hexdigest()`. -/
def md5hex (s : String) : String :=
  ⟨((md5BytesOf (strBytes s)).map fun b => [hexDigit (b / 16), hexDigit (b % 16)]).flatten⟩

/-- `ArxivClient._get_cache_key`. -/
def getCacheKey (params : List (String × JVal)) : String :=
  md5hex (dumpsParams params)

/-! ## Query parameter construction (`search`, `get_paper`, `get_papers`) -/

/-- The params dict built by `ArxivClient.search` (line 289), including the
`min(max_results, 2000)` clamp. -/
def searchParams (query : String) (start maxResults : Nat) (sortBy sortOrder : String) :
    List (String × JVal) :=
  [("search_query", .jstr query), ("start", .jnat start),
   ("max_results", .jnat (min maxResults 2000)),
   ("sortBy", .jstr sortBy), ("sortOrder", .jstr sortOrder)]

/-- The params dict built by `ArxivClient.get_paper` (line 366): the input
identifier is cleaned before querying. -/
def getPaperParams (arxivId : String) : List (String × JVal) :=
  [("id_list", .jstr (cleanArxivId arxivId)), ("max_results", .jnat 1)]

/-- The params dict built by `ArxivClient.get_papers` (line 387): each input
identifier is cleaned, then joined with commas. -/
def getPapersParams (ids : List String) : List (String × JVal) :=
  [("id_list", .jstr (String.intercalate "," (ids.map cleanArxivId))),
   ("max_results", .jnat ids.length)]

/-! ## Concrete instances used by witnesses and counterexamples -/

/-- An entry with every child element absent. -/
def emptyEntry : XmlEntry :=
  { id? := none, title? := none, authors := [], summary? := none,
    published? := none, updated? := none, primaryCategory? := none,
    categories := [], links := [], doi? := none, journalRef? := none,
    comment? := none }

/-- The amended no-raise precondition for `_parse_entry`: every optional
text-bearing element is either absent or carries text; a present element
with `None` text is the raise case established for claim C10. -/
def presentTextOk (e : XmlEntry) : Prop :=
  e.title? ≠ some none ∧ e.summary? ≠ some none ∧
  e.published? ≠ some none ∧ e.updated? ≠ some none

/-- Entry whose identifier element is present but empty (`<id/>`). -/
def nullIdEntry : XmlEntry := { emptyEntry with id? := some none }

/-- Entry with title present but empty (`<title/>`). -/
def nullTitleEntry : XmlEntry := { emptyEntry with title? := some none }

/-- The end-to-end scenario entry of the spec (section 8): identifier URL
`.../abs/2106.01234`, a title with ragged whitespace, two authors, and a PDF
link. -/
def scenarioEntry : XmlEntry :=
  { emptyEntry with
    id? := some (some "http://arxiv.org/abs/2106.01234")
    title? := some (some "  A   Study\nof  X ")
    authors := [⟨some (some "Alice Ana"), none⟩, ⟨some (some "Bob Burns"), none⟩]
    links := [⟨some "related", some "http://arxiv.org/pdf/2106.01234",
               some "application/pdf"⟩] }

/-- Script for the C2 counterexample: the first attempt yields a 204
response (a non-200 status below 400), the second a well-formed empty
result. -/
def c2Script : Nat → AttemptOutcome
  | 0 => .response 204 (.entries [])
  | _ => .response 200 (.entries [])

/-- Script for the C1 witness: two transient failures, then success. -/
def c1Script : Nat → AttemptOutcome
  | 0 => .timeout
  | 1 => .response 503 .malformed
  | _ => .response 200 (.entries [])

/-- Script whose attempts all fail transiently, ending on a server error. -/
def allServerErrScript : Nat → AttemptOutcome := fun _ => .response 500 .malformed

/-- Script whose first attempt yields a 404 client error. -/
def notFoundScript : Nat → AttemptOutcome := fun _ => .response 404 (.entries [])

/-- Script whose first attempt yields unparseable XML under status 200. -/
def malformedScript : Nat → AttemptOutcome := fun _ => .response 200 .malformed

/-- Script whose first attempt yields the API error-response shape. -/
def apiErrScript : Nat → AttemptOutcome := fun _ =>
  .response 200 (.entries [{ emptyEntry with title? := some (some "Error in query") }])

/-! ## Theorems -/

/-! ### Claim C10: present-but-empty title or summary makes the parser raise -/

/-- Claim C10: for every entry in which a title or summary element is present
but carries no text, `_parse_entry` raises (attribute access on a `None`
text) instead of producing a record; the no-raise guarantee only covers
elements that are entirely absent. -/
theorem c10_parse_raises_on_null_text (e : XmlEntry)
    (h : e.title? = some none ∨ e.summary? = some none) :
    ∃ msg, parseEntry e = .error msg := by
  rcases h with h | h
  · exact ⟨"AttributeError: NoneType title", by simp [parseEntry, entryRaise?, h]⟩
  · by_cases ht : e.title? = some none
    · exact ⟨"AttributeError: NoneType title", by simp [parseEntry, entryRaise?, ht]⟩
    · exact ⟨"AttributeError: NoneType summary", by simp [parseEntry, entryRaise?, ht, h]⟩

theorem c10_witness :
    (nullTitleEntry.title? = some none ∨ nullTitleEntry.summary? = some none) ∧
    ∃ msg, parseEntry nullTitleEntry = .error msg :=
  ⟨Or.inl rfl, c10_parse_raises_on_null_text nullTitleEntry (Or.inl rfl)⟩

/-! ### Claim C3: the rate limiter -/

/-- Both branches of `_rate_limit` end no earlier than `last + delay`. -/
theorem rateLimitStep_lower (delay last now : ℚ) :
    last + delay ≤ (rateLimitStep delay last now).1 := by
  unfold rateLimitStep
  dsimp only
  split
  · linarith
  · linarith [not_lt.mp (by assumption : ¬ now - last < delay)]

/-- Claim C3: each `_rate_limit` call returns no earlier than `delay` seconds
after the stored previous-send time, never travels back in time, and records
its own return time as the new last-sent time; consequently the n-th of a run
of consecutive calls returns at least `n * delay` after the first one, so N
consecutive calls span at least `(N-1) * delay` seconds. -/
theorem c3_rate_limiter :
    (∀ delay last now : ℚ,
        last + delay ≤ (rateLimitStep delay last now).1 ∧
        now ≤ (rateLimitStep delay last now).1 ∧
        (rateLimitStep delay last now).2 = (rateLimitStep delay last now).1) ∧
    (∀ (delay : ℚ) (gap : Nat → ℚ) (last0 now0 : ℚ) (n : Nat),
        acquireClock delay gap last0 now0 0 + n * delay ≤
          acquireClock delay gap last0 now0 n) := by
  constructor
  · intro delay last now
    refine ⟨rateLimitStep_lower delay last now, ?_, rfl⟩
    unfold rateLimitStep
    dsimp only
    split
    · linarith
    · linarith
  · intro delay gap last0 now0 n
    induction n with
    | zero => simp
    | succ k ih =>
      have hstep := rateLimitStep_lower delay (acquireClock delay gap last0 now0 k)
        (acquireClock delay gap last0 now0 k + gap k)
      have : acquireClock delay gap last0 now0 (k + 1) =
          (rateLimitStep delay (acquireClock delay gap last0 now0 k)
            (acquireClock delay gap last0 now0 k + gap k)).1 := rfl
      rw [this]
      push_cast
      push_cast at ih
      linarith

/-! ### Claim C4: the cache -/

/-- Overwrite case of `cachePut`: lookup finds the rewritten pair. -/
theorem lookup_map_overwrite {α : Type} (key : String) (ts : ℚ) (r : α) :
    ∀ entries : List (String × ℚ × α),
      (entries.any fun kv => kv.1 = key) = true →
      (entries.map fun kv => if kv.1 = key then (key, ts, r) else kv).lookup key =
        some (ts, r) := by
  intro entries
  induction entries with
  | nil => simp
  | cons kv rest ih =>
    intro hany
    by_cases hk : kv.1 = key
    · simp only [List.map_cons, if_pos hk]
      simp [List.lookup]
    · have hpkv : (decide (kv.1 = key)) = false := decide_eq_false hk
      rw [List.any_cons, hpkv, Bool.false_or] at hany
      have hbeq : (key == kv.1) = false := beq_eq_false_iff_ne.mpr fun h => hk h.symm
      rw [List.map_cons, if_neg hk]
      simp only [List.lookup, hbeq]
      exact ih hany

/-- Append case of `cachePut`: the key was absent so lookup reaches the new
final pair. -/
theorem lookup_append_new {α : Type} (key : String) (ts : ℚ) (r : α) :
    ∀ entries : List (String × ℚ × α),
      (entries.any fun kv => kv.1 = key) = false →
      (entries ++ [(key, ts, r)]).lookup key = some (ts, r) := by
  intro entries
  induction entries with
  | nil => simp [List.lookup]
  | cons kv rest ih =>
    intro hany
    rw [List.any_cons] at hany
    obtain ⟨h1, h2⟩ := Bool.or_eq_false_iff.mp hany
    have hk : ¬ kv.1 = key := of_decide_eq_false h1
    have hbeq : (key == kv.1) = false := beq_eq_false_iff_ne.mpr fun h => hk h.symm
    simp only [List.cons_append, List.lookup, hbeq]
    exact ih h2

/-- After `cachePut`, looking up the written key finds the fresh pair. -/
theorem lookup_cachePut {α : Type} (entries : List (String × ℚ × α))
    (key : String) (ts : ℚ) (r : α) :
    (cachePut entries key ts r).lookup key = some (ts, r) := by
  unfold cachePut
  split
  · exact lookup_map_overwrite key ts r entries (by assumption)
  · exact lookup_append_new key ts r entries
      (Bool.eq_false_iff.mpr (by assumption))

/-- Claim C4: with a cache directory configured, `_get_cached` returns
stored records exactly when a valid entry exists whose age is strictly below
the TTL; an immediate `get` after a `put` returns what was put; a `get` at or
past the TTL reports absent; and with no cache directory, `get` is always
absent and `put` is a no-op. -/
theorem c4_cache :
    (∀ (α : Type) (st : CacheState α) (ttl now : ℚ) (key : String) (r : α),
        getCached st ttl now key = some r ↔
          st.cacheDir = true ∧
            ∃ ts, st.entries.lookup key = some (ts, r) ∧ now - ts < ttl) ∧
    (∀ (α : Type) (st : CacheState α) (ttl now : ℚ) (key : String) (r : α),
        st.cacheDir = true → 0 < ttl →
        getCached (setCached st now key r) ttl now key = some r) ∧
    (∀ (α : Type) (st : CacheState α) (ttl now' : ℚ) (key : String) (ts : ℚ) (r : α),
        st.entries.lookup key = some (ts, r) → ttl ≤ now' - ts →
        getCached st ttl now' key = none) ∧
    (∀ (α : Type) (st : CacheState α) (ttl now : ℚ) (key : String) (r : α),
        st.cacheDir = false →
        getCached st ttl now key = none ∧ setCached st now key r = st) := by
  refine ⟨?_, ?_, ?_, ?_⟩
  · intro α st ttl now key r
    unfold getCached
    by_cases hdir : st.cacheDir = true
    · rw [if_pos hdir]
      cases hlook : st.entries.lookup key with
      | none =>
        constructor
        · intro h
          simp at h
        · rintro ⟨-, ts', heq, -⟩
          simp at heq
      | some p =>
        obtain ⟨ts, res⟩ := p
        dsimp only
        by_cases hlt : now - ts < ttl
        · rw [if_pos hlt]
          constructor
          · intro h
            have hr : res = r := by simpa using h
            exact ⟨hdir, ts, by rw [hr], hlt⟩
          · rintro ⟨-, ts', heq, -⟩
            have h2 : res = r := (by simpa using heq : ts = ts' ∧ res = r).2
            rw [h2]
        · rw [if_neg hlt]
          constructor
          · intro h
            simp at h
          · rintro ⟨-, ts', heq, hlt'⟩
            obtain ⟨h1, h2⟩ := (by simpa using heq : ts = ts' ∧ res = r)
            exact absurd (h1 ▸ hlt') hlt
    · rw [if_neg hdir]
      constructor
      · intro h
        simp at h
      · rintro ⟨h, -⟩
        exact absurd h hdir
  · intro α st ttl now key r hdir httl
    have h0 : now - now < ttl := by linarith
    simp [getCached, setCached, hdir, lookup_cachePut, h0, httl]
  · intro α st ttl now' key ts r hlook hge
    have hnot : ¬ now' - ts < ttl := not_lt.mpr (by linarith)
    by_cases hdir : st.cacheDir = true
    · simp [getCached, hdir, hlook, hnot]
    · simp [getCached, hdir]
  · intro α st ttl now key r hdir
    constructor
    · unfold getCached
      rw [if_neg (by simp [hdir])]
    · unfold setCached
      rw [if_neg (by simp [hdir])]

theorem c4_witness :
    ((((⟨true, []⟩ : CacheState Nat).cacheDir = true ∧ (0 : ℚ) < 1) ∧
        getCached (setCached (⟨true, []⟩ : CacheState Nat) 0 "k" 42) 1 0 "k" = some 42) ∧
      ((([("k", (0 : ℚ), 42)] : List (String × ℚ × Nat)).lookup "k" = some (0, 42) ∧
          (1 : ℚ) ≤ 5 - 0) ∧
        getCached (⟨true, [("k", 0, 42)]⟩ : CacheState Nat) 1 5 "k" = none)) ∧
      ((⟨false, []⟩ : CacheState Nat).cacheDir = false ∧
        getCached (⟨false, []⟩ : CacheState Nat) 1 0 "k" = none ∧
          setCached (⟨false, []⟩ : CacheState Nat) 0 "k" 7 = ⟨false, []⟩) :=
  ⟨⟨⟨⟨rfl, by norm_num⟩,
      c4_cache.2.1 Nat ⟨true, []⟩ 1 0 "k" 42 rfl (by norm_num)⟩,
    ⟨⟨rfl, by norm_num⟩,
      c4_cache.2.2.1 Nat ⟨true, [("k", 0, 42)]⟩ 1 5 "k" 0 42 rfl (by norm_num)⟩⟩,
    ⟨rfl, c4_cache.2.2.2 Nat ⟨false, []⟩ 1 0 "k" 7 rfl⟩⟩

/-! ### Claims C1 and C2: the retry loop -/

theorem range_pow_shift (a k : Nat) :
    (List.range (k + 1)).map (fun j => 2 ^ (a + j)) =
      2 ^ a :: (List.range k).map (fun j => 2 ^ (a + 1 + j)) := by
  rw [List.range_succ_eq_map]
  simp only [List.map_cons, List.map_map, Nat.add_zero]
  refine congrArg _ ?_
  apply List.map_congr_left
  intro j _
  simp only [Function.comp_apply]
  congr 1
  omega

theorem map_pow_zero_shift (k : Nat) :
    (List.range k).map (fun j => 2 ^ (0 + j)) = backoffs k := by
  unfold backoffs
  apply List.map_congr_left
  intro j _
  simp

/-- Transient prefix of length `k` within the attempt budget followed by a
good success: the loop sleeps `2 ^ attempt` before each retry and returns the
parsed papers. -/
theorem makeRequestAux_transient_success
    (script : Nat → AttemptOutcome) (maxR : Nat) (es : List XmlEntry) (papers : List Paper)
    (hapi : isApiErrorEntries es = none) (hparse : parseEntries es = .ok papers) :
    ∀ (k fuel attempt : Nat) (sleeps : List Nat) (attempts : Nat),
      attempt + fuel = maxR → k < fuel →
      (∀ i, i < k → isTransient (script (attempt + i)) = true) →
      script (attempt + k) = .response 200 (.entries es) →
      makeRequestAux script maxR fuel attempt sleeps attempts =
        (.ok papers, sleeps ++ (List.range k).map (fun j => 2 ^ (attempt + j)),
          attempts + (k + 1)) := by
  intro k
  induction k with
  | zero =>
    intro fuel attempt sleeps attempts hsum hk htrans hsucc
    obtain ⟨f, rfl⟩ : ∃ f, fuel = f + 1 := ⟨fuel - 1, by omega⟩
    rw [Nat.add_zero] at hsucc
    simp [makeRequestAux, hsucc, hapi, hparse]
  | succ k ih =>
    intro fuel attempt sleeps attempts hsum hk htrans hsucc
    obtain ⟨f, rfl⟩ : ∃ f, fuel = f + 1 := ⟨fuel - 1, by omega⟩
    have htr0 : isTransient (script attempt) = true := by
      simpa using htrans 0 (Nat.succ_pos k)
    have hlt : attempt < maxR - 1 := by omega
    have hrec := ih f (attempt + 1) (sleeps ++ [2 ^ attempt]) (attempts + 1)
      (by omega) (by omega)
      (fun i hi => by
        have := htrans (i + 1) (by omega)
        simpa [show attempt + (i + 1) = attempt + 1 + i by omega] using this)
      (by
        have : attempt + 1 + k = attempt + (k + 1) := by omega
        rw [this]
        exact hsucc)
    have hout' := htr0
    cases hout : script attempt with
    | timeout =>
      rw [show makeRequestAux script maxR (f + 1) attempt sleeps attempts =
          makeRequestAux script maxR f (attempt + 1) (sleeps ++ [2 ^ attempt]) (attempts + 1) by
        simp [makeRequestAux, hout, hlt]]
      rw [hrec, range_pow_shift]
      simp [List.append_assoc]
      omega
    | connError =>
      rw [show makeRequestAux script maxR (f + 1) attempt sleeps attempts =
          makeRequestAux script maxR f (attempt + 1) (sleeps ++ [2 ^ attempt]) (attempts + 1) by
        simp [makeRequestAux, hout, hlt]]
      rw [hrec, range_pow_shift]
      simp [List.append_assoc]
      omega
    | response s body =>
      rw [hout] at hout'
      have h5 : 500 ≤ s := by simpa [isTransient] using hout'
      have h200 : ¬ s = 200 := by omega
      rw [show makeRequestAux script maxR (f + 1) attempt sleeps attempts =
          makeRequestAux script maxR f (attempt + 1) (sleeps ++ [2 ^ attempt]) (attempts + 1) by
        simp [makeRequestAux, hout, h200, h5]]
      rw [hrec, range_pow_shift]
      simp [List.append_assoc]
      omega

/-- A fully transient run exhausts the loop: the surfaced terminal error and
the sleep count are both determined by the final attempt's failure kind. -/
theorem makeRequestAux_all_transient (script : Nat → AttemptOutcome) (maxR : Nat) :
    ∀ (fuel attempt : Nat) (sleeps : List Nat) (attempts : Nat),
      attempt + fuel = maxR → 1 ≤ fuel →
      (∀ i, attempt ≤ i → i < maxR → isTransient (script i) = true) →
      makeRequestAux script maxR fuel attempt sleeps attempts =
        (.error (exhaustError (script (maxR - 1)) maxR),
          sleeps ++ (List.range (exhaustLen (script (maxR - 1)) fuel)).map
            (fun j => 2 ^ (attempt + j)),
          attempts + fuel) := by
  intro fuel
  induction fuel with
  | zero =>
    intro attempt sleeps attempts hsum h1
    omega
  | succ f ihf =>
    intro attempt sleeps attempts hsum h1 htrans
    have hlast : attempt + f = maxR - 1 := by omega
    by_cases hf : f = 0
    · subst hf
      have hatt : attempt = maxR - 1 := by omega
      have htr := htrans attempt le_rfl (by omega)
      have hnlt : ¬ attempt < maxR - 1 := by omega
      cases hout : script attempt with
      | timeout =>
        rw [hatt] at hout
        simp [makeRequestAux, hatt, hout, hnlt, exhaustError, exhaustLen]
      | connError =>
        rw [hatt] at hout
        simp [makeRequestAux, hatt, hout, hnlt, exhaustError, exhaustLen]
      | response s body =>
        rw [hout] at htr
        have h5 : 500 ≤ s := by simpa [isTransient] using htr
        have h200 : ¬ s = 200 := by omega
        rw [hatt] at hout
        simp [makeRequestAux, hatt, hout, h200, h5, exhaustError, exhaustLen,
          List.range_succ]
    · have htr0 := htrans attempt le_rfl (by omega)
      have hlt : attempt < maxR - 1 := by omega
      have hrec := ihf (attempt + 1) (sleeps ++ [2 ^ attempt]) (attempts + 1)
        (by omega) (by omega) (fun i hi hi2 => htrans i (by omega) hi2)
      have hlen : ∀ o, exhaustLen o (f + 1) = exhaustLen o f + 1 := by
        intro o
        cases o <;> simp [exhaustLen] <;> omega
      cases hout : script attempt with
      | timeout =>
        rw [show makeRequestAux script maxR (f + 1) attempt sleeps attempts =
            makeRequestAux script maxR f (attempt + 1) (sleeps ++ [2 ^ attempt]) (attempts + 1) by
          simp [makeRequestAux, hout, hlt]]
        rw [hrec, hlen, range_pow_shift]
        simp [List.append_assoc]
        omega
      | connError =>
        rw [show makeRequestAux script maxR (f + 1) attempt sleeps attempts =
            makeRequestAux script maxR f (attempt + 1) (sleeps ++ [2 ^ attempt]) (attempts + 1) by
          simp [makeRequestAux, hout, hlt]]
        rw [hrec, hlen, range_pow_shift]
        simp [List.append_assoc]
        omega
      | response s body =>
        rw [hout] at htr0
        have h5 : 500 ≤ s := by simpa [isTransient] using htr0
        have h200 : ¬ s = 200 := by omega
        rw [show makeRequestAux script maxR (f + 1) attempt sleeps attempts =
            makeRequestAux script maxR f (attempt + 1) (sleeps ++ [2 ^ attempt]) (attempts + 1) by
          simp [makeRequestAux, hout, h200, h5]]
        rw [hrec, hlen, range_pow_shift]
        simp [List.append_assoc]
        omega

theorem exhaustSleeps_eq (o : AttemptOutcome) (maxR : Nat) :
    exhaustSleeps o maxR = (List.range (exhaustLen o maxR)).map (fun j => 2 ^ j) := by
  cases o <;> simp [exhaustLen, exhaustSleeps, backoffs]

/-- Claim C1: a run of `k < maxRetries` transient failures (timeout,
connection error, or status at least 500) followed by a well-formed success
returns the parsed result after backoff sleeps of exactly
`1, 2, 4, ..., 2^(k-1)` seconds, one between each pair of attempts; and when
every attempt fails transiently the loop surfaces a terminal error carrying
the configured retry count and determined by the final failure's kind
(timeout, connection error, or server error). -/
theorem c1_retry_backoff :
    (∀ (script : Nat → AttemptOutcome) (maxR k : Nat) (es : List XmlEntry)
        (papers : List Paper),
        (∀ i, i < k → isTransient (script i) = true) →
        script k = .response 200 (.entries es) →
        isApiErrorEntries es = none →
        parseEntries es = .ok papers →
        k < maxR →
        makeRequest script maxR = (.ok papers, backoffs k, k + 1)) ∧
    (∀ (script : Nat → AttemptOutcome) (maxR : Nat),
        1 ≤ maxR →
        (∀ i, i < maxR → isTransient (script i) = true) →
        makeRequest script maxR =
          (.error (exhaustError (script (maxR - 1)) maxR),
            exhaustSleeps (script (maxR - 1)) maxR, maxR)) := by
  constructor
  · intro script maxR k es papers htrans hsucc hapi hparse hk
    have := makeRequestAux_transient_success script maxR es papers hapi hparse k maxR 0 [] 0
      (by omega) hk (fun i hi => by simpa using htrans i hi) (by simpa using hsucc)
    simpa [makeRequest, map_pow_zero_shift] using this
  · intro script maxR h1 htrans
    have h := makeRequestAux_all_transient script maxR maxR 0 [] 0 (by omega) h1
      (fun i _ hi => htrans i hi)
    simp only [Nat.zero_add, List.nil_append] at h
    unfold makeRequest
    rw [h, exhaustSleeps_eq]

theorem c1_witness :
    (((∀ i, i < 2 → isTransient (c1Script i) = true) ∧
        c1Script 2 = .response 200 (.entries []) ∧
        isApiErrorEntries ([] : List XmlEntry) = none ∧
        parseEntries ([] : List XmlEntry) = .ok [] ∧ 2 < 3) ∧
      makeRequest c1Script 3 = (.ok [], backoffs 2, 3)) ∧
    ((1 ≤ 2 ∧ ∀ i, i < 2 → isTransient (allServerErrScript i) = true) ∧
      makeRequest allServerErrScript 2 =
        (.error (exhaustError (allServerErrScript 1) 2),
          exhaustSleeps (allServerErrScript 1) 2, 2)) :=
  ⟨⟨⟨by decide, rfl, rfl, rfl, by decide⟩,
      c1_retry_backoff.1 c1Script 3 2 [] [] (by decide) rfl rfl rfl (by decide)⟩,
    ⟨⟨by decide, by decide⟩,
      c1_retry_backoff.2 allServerErrScript 2 (by decide) (by decide)⟩⟩

/-- Counterexample to claim C2 as stated: a 204 response is a non-transient
class outcome with status in the 2xx range other than 200, yet the loop does
not fail immediately — it proceeds to a second attempt (without sleeping) and
returns that attempt's success, consuming retry budget. -/
theorem c2_counterexample :
    c2Script 0 = .response 204 (.entries []) ∧
    isTransient (c2Script 0) = false ∧
    makeRequest c2Script 3 = (.ok [], [], 2) :=
  ⟨rfl, rfl, by decide⟩

/-- Claim C2 amended: a 4xx status, unparseable XML under status 200, and the
single-entry error-titled response each fail on the first attempt with no
backoff sleep and no second attempt; but a non-200 status below 400 does not
fail — `raise_for_status` is a no-op for it and the loop silently moves to
the next attempt, without sleeping, consuming one unit of retry budget. -/
theorem c2_nontransient_no_retry :
    (∀ (script : Nat → AttemptOutcome) (maxR s : Nat) (body : XmlPayload),
        1 ≤ maxR → script 0 = .response s body → 400 ≤ s → s < 500 →
        makeRequest script maxR = (.error (.httpError s), [], 1)) ∧
    (∀ (script : Nat → AttemptOutcome) (maxR : Nat),
        1 ≤ maxR → script 0 = .response 200 .malformed →
        makeRequest script maxR = (.error .parseFailed, [], 1)) ∧
    (∀ (script : Nat → AttemptOutcome) (maxR : Nat) (es : List XmlEntry) (t : String),
        1 ≤ maxR → script 0 = .response 200 (.entries es) →
        isApiErrorEntries es = some t →
        makeRequest script maxR = (.error (.apiError t), [], 1)) ∧
    (∀ (script : Nat → AttemptOutcome) (maxR s : Nat) (body : XmlPayload),
        1 ≤ maxR → script 0 = .response s body → ¬ s = 200 → s < 400 →
        makeRequest script maxR =
          makeRequestAux script maxR (maxR - 1) 1 [] 1) := by
  refine ⟨?_, ?_, ?_, ?_⟩
  · intro script maxR s body h1 hscript h4 h5
    obtain ⟨m, rfl⟩ : ∃ m, maxR = m + 1 := ⟨maxR - 1, by omega⟩
    have h200 : ¬ s = 200 := by omega
    have hn5 : ¬ 500 ≤ s := by omega
    simp [makeRequest, makeRequestAux, hscript, h200, hn5, h4]
  · intro script maxR h1 hscript
    obtain ⟨m, rfl⟩ : ∃ m, maxR = m + 1 := ⟨maxR - 1, by omega⟩
    simp [makeRequest, makeRequestAux, hscript]
  · intro script maxR es t h1 hscript hapi
    obtain ⟨m, rfl⟩ : ∃ m, maxR = m + 1 := ⟨maxR - 1, by omega⟩
    simp [makeRequest, makeRequestAux, hscript, hapi]
  · intro script maxR s body h1 hscript h200 h4
    obtain ⟨m, rfl⟩ : ∃ m, maxR = m + 1 := ⟨maxR - 1, by omega⟩
    have hn5 : ¬ 500 ≤ s := by omega
    have hn4 : ¬ 400 ≤ s := by omega
    simp [makeRequest, makeRequestAux, hscript, h200, hn5, hn4]

theorem c2_witness :
    ((1 ≤ 3 ∧ notFoundScript 0 = .response 404 (.entries []) ∧ 400 ≤ 404 ∧ 404 < 500) ∧
      makeRequest notFoundScript 3 = (.error (.httpError 404), [], 1)) ∧
    ((1 ≤ 3 ∧ malformedScript 0 = .response 200 .malformed) ∧
      makeRequest malformedScript 3 = (.error .parseFailed, [], 1)) ∧
    ((1 ≤ 3 ∧ isApiErrorEntries [{ emptyEntry with title? := some (some "Error in query") }] =
        some "Error in query") ∧
      makeRequest apiErrScript 3 = (.error (.apiError "Error in query"), [], 1)) ∧
    ((1 ≤ 3 ∧ c2Script 0 = .response 204 (.entries []) ∧ ¬ (204 = 200) ∧ 204 < 400) ∧
      makeRequest c2Script 3 = makeRequestAux c2Script 3 2 1 [] 1) :=
  ⟨⟨⟨by decide, rfl, by decide, by decide⟩,
      c2_nontransient_no_retry.1 notFoundScript 3 404 (.entries []) (by decide) rfl
        (by decide) (by decide)⟩,
    ⟨⟨by decide, rfl⟩,
      c2_nontransient_no_retry.2.1 malformedScript 3 (by decide) rfl⟩,
    ⟨⟨by decide, by decide⟩,
      c2_nontransient_no_retry.2.2.1 apiErrScript 3 _ "Error in query" (by decide) rfl
        (by decide)⟩,
    ⟨⟨by decide, rfl, by decide, by decide⟩,
      c2_nontransient_no_retry.2.2.2 c2Script 3 204 (.entries []) (by decide) rfl
        (by decide) (by decide)⟩⟩

/-! ### Claim C6: parser defaults -/

/-- Counterexample to claim C6 as stated: an entry whose identifier element
is present but empty parses successfully to a record whose id is the empty
string, so "the produced id is non-empty whenever the identifier element is
present" fails; moreover (claim C10) a present-but-empty title or summary
makes the parser raise, so the no-raise guarantee does not extend to every
entry merely missing a subset of its optional sub-elements. -/
theorem c6_counterexample :
    nullIdEntry.id? = some none ∧
    (parseEntry nullIdEntry).map Paper.arxiv_id = .ok "" := by
  constructor
  · rfl
  · rfl

/-- The id produced by `_parse_entry` when the identifier element carries
text: the last slash-separated segment of that text (the empty-text case
degenerates to the empty string through Python truthiness). -/
theorem buildPaper_arxiv_id (e : XmlEntry) (t : String) (hid : e.id? = some (some t)) :
    (buildPaper e).arxiv_id = (⟨lastSegL t.data⟩ : String) := by
  by_cases ht : t = ""
  · subst ht
    simp [buildPaper, hid, optText, pyTruthyStr, lastSegL]
  · have hne : t.data.isEmpty = false := by
      rw [Bool.eq_false_iff]
      intro hc
      exact ht (String.ext (by rw [List.isEmpty_iff.mp hc]))
    simp [buildPaper, hid, optText, pyTruthyStr, hne]

/-- Claim C6 amended: for every entry whose present text-bearing elements
carry text (absent elements remain arbitrary), the parser does not raise,
fills each missing field with its documented default, computes the id as the
last URL segment of the identifier text, and that id is non-empty exactly
when the identifier element is present with text whose final slash-separated
segment is non-empty; an entry with no identifier (or an empty identifier
element) yields empty-string id fields rather than raising. -/
theorem c6_parser_defaults (e : XmlEntry) (h : presentTextOk e) :
    ∃ r, parseEntry e = .ok r ∧
      (e.id? = none → r.arxiv_id = "" ∧ r.base_id = "") ∧
      (e.id? = some none → r.arxiv_id = "" ∧ r.base_id = "") ∧
      (∀ t, e.id? = some (some t) → r.arxiv_id = (⟨lastSegL t.data⟩ : String)) ∧
      (∀ t, e.id? = some (some t) → lastSegL t.data ≠ [] → r.arxiv_id ≠ "") ∧
      (e.title? = none → r.title = "") ∧
      (e.authors = [] → r.authors = [] ∧ r.affiliations = []) ∧
      (e.summary? = none → r.abstract = "") ∧
      (e.published? = none → r.published = "" ∧ r.published_datetime = none) ∧
      (e.updated? = none → r.updated = "" ∧ r.updated_datetime = none) ∧
      (e.primaryCategory? = none → r.primary_category = some "") ∧
      (e.categories = [] → r.categories = []) ∧
      (e.links = [] → r.links = []) ∧
      (e.doi? = none → r.doi = none) ∧
      (e.journalRef? = none → r.journal_ref = none) ∧
      (e.comment? = none → r.comment = none) := by
  obtain ⟨h1, h2, h3, h4⟩ := h
  have hraise : entryRaise? e = none := by
    simp [entryRaise?, h1, h2, h3, h4]
  have hrep : (⟨replaceCharL 'Z' ("+00:00".data) ("" : String).data⟩ : String) = "" := rfl
  have hiso : fromIso? "" = none := rfl
  refine ⟨buildPaper e, by simp [parseEntry, hraise], ?_, ?_, ?_, ?_, ?_, ?_, ?_, ?_,
    ?_, ?_, ?_, ?_, ?_, ?_, ?_⟩
  · intro hid
    constructor
    · simp [buildPaper, hid, optText, pyTruthyStr]
    · simp [buildPaper, hid, optText, pyTruthyStr, stripVersionL]
  · intro hid
    constructor
    · simp [buildPaper, hid, optText, pyTruthyStr]
    · simp [buildPaper, hid, optText, pyTruthyStr, stripVersionL]
  · intro t hid
    exact buildPaper_arxiv_id e t hid
  · intro t hid hseg
    rw [buildPaper_arxiv_id e t hid]
    intro hc
    exact hseg (congrArg String.data hc)
  · intro ht
    simp [buildPaper, ht]
  · intro ha
    constructor
    · simp [buildPaper, entryAuthors, ha]
    · simp [buildPaper, entryAffils, ha]
  · intro hs
    simp [buildPaper, hs]
  · intro hp
    constructor
    · simp [buildPaper, hp, optText, hrep, hiso]
    · simp [buildPaper, hp, optText, hrep, hiso]
  · intro hu
    constructor
    · simp [buildPaper, hu, optText, hrep, hiso]
    · simp [buildPaper, hu, optText, hrep, hiso]
  · intro hpc
    simp [buildPaper, hpc]
  · intro hc
    simp [buildPaper, hc]
  · intro hl
    simp [buildPaper, entryLinks, hl]
  · intro hd
    simp [buildPaper, hd]
  · intro hj
    simp [buildPaper, hj]
  · intro hc
    simp [buildPaper, hc]

theorem c6_witness :
    presentTextOk emptyEntry ∧
    ∃ r, parseEntry emptyEntry = .ok r ∧
      (emptyEntry.id? = none → r.arxiv_id = "" ∧ r.base_id = "") ∧
      (emptyEntry.id? = some none → r.arxiv_id = "" ∧ r.base_id = "") ∧
      (∀ t, emptyEntry.id? = some (some t) → r.arxiv_id = (⟨lastSegL t.data⟩ : String)) ∧
      (∀ t, emptyEntry.id? = some (some t) → lastSegL t.data ≠ [] → r.arxiv_id ≠ "") ∧
      (emptyEntry.title? = none → r.title = "") ∧
      (emptyEntry.authors = [] → r.authors = [] ∧ r.affiliations = []) ∧
      (emptyEntry.summary? = none → r.abstract = "") ∧
      (emptyEntry.published? = none → r.published = "" ∧ r.published_datetime = none) ∧
      (emptyEntry.updated? = none → r.updated = "" ∧ r.updated_datetime = none) ∧
      (emptyEntry.primaryCategory? = none → r.primary_category = some "") ∧
      (emptyEntry.categories = [] → r.categories = []) ∧
      (emptyEntry.links = [] → r.links = []) ∧
      (emptyEntry.doi? = none → r.doi = none) ∧
      (emptyEntry.journalRef? = none → r.journal_ref = none) ∧
      (emptyEntry.comment? = none → r.comment = none) :=
  ⟨⟨by simp [emptyEntry], by simp [emptyEntry], by simp [emptyEntry], by simp [emptyEntry]⟩,
    c6_parser_defaults emptyEntry
      ⟨by simp [emptyEntry], by simp [emptyEntry], by simp [emptyEntry], by simp [emptyEntry]⟩⟩

/-! ### Claim C7: whitespace normalisation, link classification, derived URLs -/

theorem collapse_ne_nil : ∀ l : List Char, l ≠ [] → collapseWsAux l ≠ []
  | [], h => absurd rfl h
  | [c], _ => by
    simp only [collapseWsAux]
    split <;> simp
  | c1 :: c2 :: rest, _ => by
    have ih := collapse_ne_nil (c2 :: rest) (by simp)
    simp only [collapseWsAux]
    split
    · exact ih
    · split <;> simp

/-- The collapse step preserves a non-whitespace head character. -/
theorem collapse_head_not_ws (c : Char) (rest : List Char) (h : isPyWs c = false) :
    (collapseWsAux (c :: rest)).head? = some c := by
  cases rest with
  | nil => simp [collapseWsAux, h]
  | cons c2 r => simp [collapseWsAux, h]

/-- Every whitespace character surviving the collapse is a space. -/
theorem collapse_mem_ws_space :
    ∀ l : List Char, ∀ c ∈ collapseWsAux l, isPyWs c = true → c = ' '
  | [], c, hc, _ => absurd hc (by simp [collapseWsAux])
  | [b], c, hc, hws => by
    revert hc
    simp only [collapseWsAux]
    split
    · intro hc
      simpa using hc
    · rename_i hb
      intro hc
      have hcb : c = b := by simpa using hc
      subst hcb
      exact absurd hws hb
  | c1 :: c2 :: rest, c, hc, hws => by
    revert hc
    simp only [collapseWsAux]
    split
    · intro hc
      exact collapse_mem_ws_space (c2 :: rest) c hc hws
    · split
      · intro hc
        rcases List.mem_cons.mp hc with rfl | hc2
        · rfl
        · exact collapse_mem_ws_space (c2 :: rest) c hc2 hws
      · rename_i h12 h1
        intro hc
        rcases List.mem_cons.mp hc with rfl | hc2
        · exact absurd hws h1
        · exact collapse_mem_ws_space (c2 :: rest) c hc2 hws

/-- No two adjacent characters of a collapsed list are both whitespace. -/
theorem collapse_chain :
    ∀ l : List Char,
      (collapseWsAux l).Chain' (fun a b => ¬(isPyWs a = true ∧ isPyWs b = true))
  | [] => by simp [collapseWsAux]
  | [c] => by
    simp only [collapseWsAux]
    split <;> simp
  | c1 :: c2 :: rest => by
    have ih := collapse_chain (c2 :: rest)
    simp only [collapseWsAux]
    split
    · exact ih
    · rename_i h12
      split
      · rename_i h1
        have hc2 : isPyWs c2 = false := by
          cases hb : isPyWs c2
          · rfl
          · exact (h12 (by rw [h1, hb]; rfl)).elim
        refine List.chain'_cons'.mpr ⟨?_, ih⟩
        intro y hy
        rw [collapse_head_not_ws c2 rest hc2] at hy
        have hyc : c2 = y := by simpa using hy
        subst hyc
        rintro ⟨-, hws2⟩
        rw [hc2] at hws2
        exact absurd hws2 (by simp)
      · rename_i h1
        refine List.chain'_cons'.mpr ⟨?_, ih⟩
        intro y hy
        rintro ⟨hws1, -⟩
        exact h1 hws1

/-- The collapse step preserves a non-whitespace final character. -/
theorem collapse_getLast :
    ∀ l : List Char,
      (∀ c, l.getLast? = some c → isPyWs c = false) →
      ∀ c, (collapseWsAux l).getLast? = some c → isPyWs c = false
  | [], _, c, hc => by simp [collapseWsAux] at hc
  | [b], hl, c, hc => by
    revert hc
    simp only [collapseWsAux]
    split
    · rename_i hb
      exact absurd hb (by simp [hl b (by simp)])
    · intro hc
      have hcb : b = c := by simpa using hc
      subst hcb
      exact hl b (by simp)
  | c1 :: c2 :: rest, hl, c, hc => by
    have hl2 : ∀ d, (c2 :: rest).getLast? = some d → isPyWs d = false := by
      intro d hd
      exact hl d (by rw [List.getLast?_cons_cons]; exact hd)
    revert hc
    simp only [collapseWsAux]
    split
    · intro hc
      exact collapse_getLast (c2 :: rest) hl2 c hc
    · have hne := collapse_ne_nil (c2 :: rest) (by simp)
      obtain ⟨d, ds, hds⟩ : ∃ d ds, collapseWsAux (c2 :: rest) = d :: ds := by
        cases hcc : collapseWsAux (c2 :: rest) with
        | nil => exact absurd hcc hne
        | cons d ds => exact ⟨d, ds, rfl⟩
      split
      · intro hc
        rw [hds, List.getLast?_cons_cons] at hc
        exact collapse_getLast (c2 :: rest) hl2 c (by rw [hds]; exact hc)
      · intro hc
        rw [hds, List.getLast?_cons_cons] at hc
        exact collapse_getLast (c2 :: rest) hl2 c (by rw [hds]; exact hc)

/-- The collapse step preserves a non-whitespace head character, head form. -/
theorem collapse_head_pres (l : List Char)
    (hl : ∀ c, l.head? = some c → isPyWs c = false) :
    ∀ c, (collapseWsAux l).head? = some c → isPyWs c = false := by
  intro c hc
  cases l with
  | nil => simp [collapseWsAux] at hc
  | cons b rest =>
    have hb : isPyWs b = false := hl b rfl
    rw [collapse_head_not_ws b rest hb] at hc
    have hcb : b = c := by simpa using hc
    subst hcb
    exact hb

theorem dropWhile_head_false (p : Char → Bool) :
    ∀ l : List Char, ∀ c, (l.dropWhile p).head? = some c → p c = false
  | [], c, hc => by simp at hc
  | b :: rest, c, hc => by
    rw [List.dropWhile_cons] at hc
    by_cases hb : p b = true
    · rw [if_pos hb] at hc
      exact dropWhile_head_false p rest c hc
    · rw [if_neg hb] at hc
      have hcb : b = c := by simpa using hc
      subst hcb
      exact Bool.eq_false_iff.mpr hb

/-- A stripped string does not start with whitespace. -/
theorem pyStrip_head (l : List Char) :
    ∀ c, (pyStripL l).head? = some c → isPyWs c = false := by
  intro c hc
  unfold pyStripL at hc
  rw [List.head?_reverse] at hc
  obtain ⟨pre, hpre⟩ := List.dropWhile_suffix (l := (l.dropWhile isPyWs).reverse) isPyWs
  have hrev : (l.dropWhile isPyWs).reverse.getLast? = some c := by
    rw [← hpre, List.getLast?_append, hc]
    rfl
  rw [List.getLast?_reverse] at hrev
  exact dropWhile_head_false isPyWs l c hrev

/-- A stripped string does not end with whitespace. -/
theorem pyStrip_getLast (l : List Char) :
    ∀ c, (pyStripL l).getLast? = some c → isPyWs c = false := by
  intro c hc
  unfold pyStripL at hc
  rw [List.getLast?_reverse] at hc
  exact dropWhile_head_false isPyWs _ c hc

theorem nlToSpace_head (l : List Char)
    (hl : ∀ c, l.head? = some c → isPyWs c = false) :
    ∀ c, (nlToSpace l).head? = some c → isPyWs c = false := by
  intro c hc
  unfold nlToSpace at hc
  rw [List.head?_map] at hc
  cases hh : l.head? with
  | none =>
    rw [hh] at hc
    simp at hc
  | some b =>
    rw [hh] at hc
    have hb := hl b hh
    have hbn : ¬ b = '\n' := by
      intro h
      rw [h] at hb
      simp [isPyWs] at hb
    have hcb : c = b := by
      have hcc : (if b = '\n' then ' ' else b) = c := by simpa using hc
      rw [if_neg hbn] at hcc
      exact hcc.symm
    subst hcb
    exact hb

theorem nlToSpace_getLast (l : List Char)
    (hl : ∀ c, l.getLast? = some c → isPyWs c = false) :
    ∀ c, (nlToSpace l).getLast? = some c → isPyWs c = false := by
  intro c hc
  unfold nlToSpace at hc
  rw [List.getLast?_map] at hc
  cases hh : l.getLast? with
  | none =>
    rw [hh] at hc
    simp at hc
  | some b =>
    rw [hh] at hc
    have hb := hl b hh
    have hbn : ¬ b = '\n' := by
      intro h
      rw [h] at hb
      simp [isPyWs] at hb
    have hcb : c = b := by
      have hcc : (if b = '\n' then ' ' else b) = c := by simpa using hc
      rw [if_neg hbn] at hcc
      exact hcc.symm
    subst hcb
    exact hb

/-- The four normalisation properties for the title pipeline. -/
theorem normTitle_ws_props (t : String) :
    (∀ c ∈ (normTitle t).data, isPyWs c = true → c = ' ') ∧
    (normTitle t).data.Chain' (fun a b => ¬(isPyWs a = true ∧ isPyWs b = true)) ∧
    (∀ c, (normTitle t).data.head? = some c → isPyWs c = false) ∧
    (∀ c, (normTitle t).data.getLast? = some c → isPyWs c = false) := by
  refine ⟨?_, ?_, ?_, ?_⟩
  · intro c hc hws
    exact collapse_mem_ws_space _ c hc hws
  · exact collapse_chain _
  · exact collapse_head_pres _ (nlToSpace_head _ (pyStrip_head t.data))
  · exact collapse_getLast _ (nlToSpace_getLast _ (pyStrip_getLast t.data))

/-- The four normalisation properties for the abstract pipeline. -/
theorem normAbstract_ws_props (t : String) :
    (∀ c ∈ (normAbstract t).data, isPyWs c = true → c = ' ') ∧
    (normAbstract t).data.Chain' (fun a b => ¬(isPyWs a = true ∧ isPyWs b = true)) ∧
    (∀ c, (normAbstract t).data.head? = some c → isPyWs c = false) ∧
    (∀ c, (normAbstract t).data.getLast? = some c → isPyWs c = false) := by
  refine ⟨?_, ?_, ?_, ?_⟩
  · intro c hc hws
    exact collapse_mem_ws_space _ c hc hws
  · exact collapse_chain _
  · exact collapse_head_pres _ (pyStrip_head t.data)
  · exact collapse_getLast _ (pyStrip_getLast t.data)

/-- A successful parse returns exactly `buildPaper`. -/
theorem parseEntry_ok (e : XmlEntry) (r : Paper) (hok : parseEntry e = .ok r) :
    r = buildPaper e := by
  unfold parseEntry at hok
  cases hca : entryRaise? e with
  | some m =>
    rw [hca] at hok
    simp at hok
  | none =>
    rw [hca] at hok
    simpa using hok.symm

/-- Claim C7: title and abstract whitespace is collapsed to single spaces and
trimmed (every surviving whitespace character is a space, no two adjacent
characters are whitespace, and the field neither starts nor ends with
whitespace); a link with media type `application/pdf` is keyed `pdf` and an
otherwise-unclassified `alternate` link is keyed `abstract`; the canonical
and PDF URLs are always synthesised from the version-stripped identifier,
whatever links the entry carried; and the section-8 end-to-end scenario
values hold. -/
theorem c7_normalization_links_urls :
    (∀ t : String,
        (∀ c ∈ (normTitle t).data, isPyWs c = true → c = ' ') ∧
        (normTitle t).data.Chain' (fun a b => ¬(isPyWs a = true ∧ isPyWs b = true)) ∧
        (∀ c, (normTitle t).data.head? = some c → isPyWs c = false) ∧
        (∀ c, (normTitle t).data.getLast? = some c → isPyWs c = false)) ∧
    (∀ t : String,
        (∀ c ∈ (normAbstract t).data, isPyWs c = true → c = ' ') ∧
        (normAbstract t).data.Chain' (fun a b => ¬(isPyWs a = true ∧ isPyWs b = true)) ∧
        (∀ c, (normAbstract t).data.head? = some c → isPyWs c = false) ∧
        (∀ c, (normAbstract t).data.getLast? = some c → isPyWs c = false)) ∧
    (∀ (e : XmlEntry) (r : Paper) (t : String), parseEntry e = .ok r →
        e.title? = some (some t) → r.title = normTitle t) ∧
    (∀ (e : XmlEntry) (r : Paper) (t : String), parseEntry e = .ok r →
        e.summary? = some (some t) → r.abstract = normAbstract t) ∧
    (∀ (d : List (String × String)) (link : LinkElem),
        link.type?.getD "" = "application/pdf" →
        linkStep d link = dictInsert d "pdf" (link.href?.getD "")) ∧
    (∀ (d : List (String × String)) (link : LinkElem),
        ¬ link.type?.getD "" = "application/pdf" →
        link.rel?.getD "alternate" = "alternate" →
        linkStep d link = dictInsert d "abstract" (link.href?.getD "")) ∧
    (∀ (e : XmlEntry) (r : Paper), parseEntry e = .ok r →
        r.arxiv_url = "https://arxiv.org/abs/" ++ r.base_id ∧
        r.pdf_url = "https://arxiv.org/pdf/" ++ r.base_id ++ ".pdf") ∧
    ((parseEntry scenarioEntry).map (fun p =>
        (p.arxiv_id, p.title, p.arxiv_url, p.pdf_url, dictGet? p.links "pdf")) =
      .ok ("2106.01234", "A Study of X", "https://arxiv.org/abs/2106.01234",
        "https://arxiv.org/pdf/2106.01234.pdf", some "http://arxiv.org/pdf/2106.01234")) := by
  refine ⟨normTitle_ws_props, normAbstract_ws_props, ?_, ?_, ?_, ?_, ?_, ?_⟩
  · intro e r t hok ht
    rw [parseEntry_ok e r hok]
    simp [buildPaper, ht]
  · intro e r t hok ht
    rw [parseEntry_ok e r hok]
    simp [buildPaper, ht]
  · intro d link htype
    simp [linkStep, htype]
  · intro d link htype hrel
    simp [linkStep, htype, hrel]
  · intro e r hok
    rw [parseEntry_ok e r hok]
    constructor
    · simp [buildPaper]
    · simp [buildPaper]
  · rfl

theorem c7_witness :
    ((parseEntry scenarioEntry = .ok (buildPaper scenarioEntry) ∧
        scenarioEntry.title? = some (some "  A   Study\nof  X ") ∧
        (buildPaper scenarioEntry).title = normTitle "  A   Study\nof  X ") ∧
      ((⟨some "related", some "http://arxiv.org/pdf/2106.01234",
          some "application/pdf"⟩ : LinkElem).type?.getD "" = "application/pdf" ∧
        linkStep [] ⟨some "related", some "http://arxiv.org/pdf/2106.01234",
          some "application/pdf"⟩ =
          dictInsert [] "pdf" "http://arxiv.org/pdf/2106.01234")) ∧
    ((¬ (⟨some "alternate", some "http://arxiv.org/abs/2106.01234",
          none⟩ : LinkElem).type?.getD "" = "application/pdf") ∧
      (⟨some "alternate", some "http://arxiv.org/abs/2106.01234",
          none⟩ : LinkElem).rel?.getD "alternate" = "alternate" ∧
      linkStep [] ⟨some "alternate", some "http://arxiv.org/abs/2106.01234", none⟩ =
        dictInsert [] "abstract" "http://arxiv.org/abs/2106.01234") ∧
    ((buildPaper scenarioEntry).arxiv_url =
        "https://arxiv.org/abs/" ++ (buildPaper scenarioEntry).base_id ∧
      (buildPaper scenarioEntry).pdf_url =
        "https://arxiv.org/pdf/" ++ (buildPaper scenarioEntry).base_id ++ ".pdf") :=
  ⟨⟨⟨rfl, rfl,
      c7_normalization_links_urls.2.2.1 scenarioEntry (buildPaper scenarioEntry)
        "  A   Study\nof  X " rfl rfl⟩,
    ⟨rfl,
      c7_normalization_links_urls.2.2.2.2.1 []
        ⟨some "related", some "http://arxiv.org/pdf/2106.01234", some "application/pdf"⟩
        rfl⟩⟩,
    ⟨by simp,
      rfl,
      c7_normalization_links_urls.2.2.2.2.2.1 []
        ⟨some "alternate", some "http://arxiv.org/abs/2106.01234", none⟩ (by simp) rfl⟩,
    c7_normalization_links_urls.2.2.2.2.2.2.1 scenarioEntry (buildPaper scenarioEntry) rfl⟩

/-! ### Claim C8: pagination -/

/-- A run of full pages followed by a short (or empty) page, without a
`max_results` bound: every page is concatenated and one request is issued per
page. -/
theorem paginateAux_full_then_short {α : Type} (pageSize : Nat) (hps : 0 < pageSize) :
    ∀ (front : List (List α)) (acc final : List α),
      (∀ p ∈ front, p.length = pageSize) → final.length < pageSize →
      paginateAux pageSize none (front ++ [final]) acc =
        (acc ++ front.flatten ++ final, front.length + 1) := by
  intro front
  induction front with
  | nil =>
    intro acc final _ hshort
    by_cases hfin : final.isEmpty
    · have : final = [] := List.isEmpty_iff.mp hfin
      subst this
      simp [paginateAux]
    · simp only [List.nil_append, paginateAux, hfin, Bool.false_eq_true, if_false]
      rw [if_neg (by simp [truncReached]), if_pos hshort]
      simp
  | cons page front ih =>
    intro acc final hfull hshort
    have hplen : page.length = pageSize := hfull page (List.mem_cons_self page front)
    have hpne : ¬ page.isEmpty := by
      rw [List.isEmpty_iff]
      intro h
      rw [h] at hplen
      simp at hplen
      omega
    simp only [List.cons_append, paginateAux, hpne, Bool.false_eq_true, if_false]
    rw [if_neg (by simp [truncReached]), if_neg (by omega)]
    show ((paginateAux pageSize none (front ++ [final]) (acc ++ page)).1,
        (paginateAux pageSize none (front ++ [final]) (acc ++ page)).2 + 1) = _
    rw [ih (acc ++ page) final (fun p hp => hfull p (List.mem_cons_of_mem _ hp)) hshort]
    simp [List.append_assoc]

/-- Truncation: once the accumulated count reaches the bound `m`, the result
is cut to exactly `m` records and no further request is issued (the remaining
script is never consulted). -/
theorem paginateAux_trunc {α : Type} (pageSize m : Nat) (hps : 0 < pageSize) :
    ∀ (front : List (List α)) (acc page : List α) (rest : List (List α)),
      (∀ p ∈ front, p.length = pageSize) →
      acc.length + front.flatten.length < m →
      m ≤ acc.length + front.flatten.length + page.length →
      paginateAux pageSize (some m) (front ++ page :: rest) acc =
        ((acc ++ front.flatten ++ page).take m, front.length + 1) := by
  intro front
  induction front with
  | nil =>
    intro acc page rest _ hlow hhigh
    simp only [List.flatten_nil, List.append_nil, List.length_nil, Nat.add_zero] at hlow hhigh
    have hpne : ¬ page.isEmpty := by
      rw [List.isEmpty_iff]
      intro h
      rw [h] at hhigh
      simp at hhigh
      omega
    simp only [List.nil_append, paginateAux, hpne, Bool.false_eq_true, if_false]
    rw [if_pos (by simp [truncReached, List.length_append]; omega)]
    simp [List.append_assoc]
  | cons p front ih =>
    intro acc page rest hfull hlow hhigh
    have hplen : p.length = pageSize := hfull p (List.mem_cons_self p front)
    have hpne : ¬ p.isEmpty := by
      rw [List.isEmpty_iff]
      intro h
      rw [h] at hplen
      simp at hplen
      omega
    simp only [List.flatten_cons, List.length_append] at hlow hhigh
    simp only [List.cons_append, paginateAux, hpne, Bool.false_eq_true, if_false]
    rw [if_neg (by simp only [truncReached, List.length_append]; simp; omega),
      if_neg (by omega)]
    show ((paginateAux pageSize (some m) (front ++ page :: rest) (acc ++ p)).1,
        (paginateAux pageSize (some m) (front ++ page :: rest) (acc ++ p)).2 + 1) = _
    rw [ih (acc ++ p) page rest (fun q hq => hfull q (List.mem_cons_of_mem _ hq))
      (by simp only [List.length_append]; omega)
      (by simp only [List.length_append]; omega)]
    simp [List.append_assoc]

/-- Claim C8: `paginate_all` concatenates successive pages and stops at the
first short page; with a `max_results` bound it stops as soon as the
accumulated count reaches the bound, truncates to exactly that many records,
and issues no further request.  In particular pages of 100, 100 and 47
records yield 247 records after exactly three calls, and with
`max_results = 150` exactly 150 records after two calls. -/
theorem c8_paginate_all :
    (∀ (α : Type) (pageSize : Nat) (front : List (List α)) (final : List α),
        0 < pageSize → (∀ p ∈ front, p.length = pageSize) → final.length < pageSize →
        paginateAll pageSize none (front ++ [final]) =
          (front.flatten ++ final, front.length + 1)) ∧
    (∀ (α : Type) (pageSize m : Nat) (front : List (List α)) (page : List α)
        (rest : List (List α)),
        0 < pageSize → (∀ p ∈ front, p.length = pageSize) →
        front.flatten.length < m → m ≤ front.flatten.length + page.length →
        paginateAll pageSize (some m) (front ++ page :: rest) =
          ((front.flatten ++ page).take m, front.length + 1)) ∧
    (∀ (α : Type) (p q r : List α),
        p.length = 100 → q.length = 100 → r.length = 47 →
        paginateAll 100 none [p, q, r] = (p ++ q ++ r, 3)) ∧
    (∀ (α : Type) (p q r : List α),
        p.length = 100 → q.length = 100 → r.length = 47 →
        paginateAll 100 (some 150) [p, q, r] = ((p ++ q).take 150, 2)) := by
  refine ⟨?_, ?_, ?_, ?_⟩
  · intro α pageSize front final hps hfull hshort
    unfold paginateAll
    rw [paginateAux_full_then_short pageSize hps front [] final hfull hshort]
    simp
  · intro α pageSize m front page rest hps hfull hlow hhigh
    unfold paginateAll
    rw [paginateAux_trunc pageSize m hps front [] page rest hfull (by simpa using hlow)
      (by simpa using hhigh)]
    simp
  · intro α p q r hp hq hr
    unfold paginateAll
    have hmem : ∀ x ∈ [p, q], x.length = 100 := by
      intro x hx
      rcases List.mem_cons.mp hx with rfl | hx2
      · exact hp
      · rw [List.mem_singleton.mp hx2]
        exact hq
    have h := paginateAux_full_then_short 100 (by omega) [p, q] ([] : List α) r hmem
      (by omega)
    simpa [List.append_assoc] using h
  · intro α p q r hp hq hr
    unfold paginateAll
    have hmem : ∀ x ∈ [p], x.length = 100 := by
      intro x hx
      rw [List.mem_singleton.mp hx]
      exact hp
    have h := paginateAux_trunc 100 150 (by omega) [p] ([] : List α) q [r] hmem
      (by simp [hp]) (by simp [hp, hq])
    simpa [List.append_assoc] using h

theorem c8_witness :
    ((0 < 2 ∧ (∀ p ∈ [[1, 2], [3, 4]], p.length = 2) ∧ ([5] : List Nat).length < 2) ∧
      paginateAll 2 none [[1, 2], [3, 4], [5]] = ([1, 2, 3, 4, 5], 3)) ∧
    ((0 < 2 ∧ (∀ p ∈ [[1, 2]], p.length = 2) ∧ 2 < 3 ∧ 3 ≤ 2 + 2) ∧
      paginateAll 2 (some 3) [[1, 2], [3, 4], [5]] = ([1, 2, 3], 2)) :=
  ⟨⟨⟨by decide, by decide, by decide⟩, by
      have h := c8_paginate_all.1 Nat 2 [[1, 2], [3, 4]] [5] (by decide) (by decide)
        (by decide)
      simpa using h⟩,
    ⟨⟨by decide, by decide, by decide, by decide⟩, by
      have h := c8_paginate_all.2.1 Nat 2 3 [[1, 2]] [3, 4] [[5]] (by decide) (by decide)
        (by decide) (by decide)
      simpa using h⟩⟩

/-! ### Claim C9: identifier normalisation -/

theorem isDigit_ne_dot (c : Char) (h : c.isDigit = true) : ¬ c = '.' := by
  intro hc
  rw [hc] at h
  exact absurd h (by decide)

theorem isDigit_ne_slash (c : Char) (h : c.isDigit = true) : ¬ c = '/' := by
  intro hc
  rw [hc] at h
  exact absurd h (by decide)

theorem inOldClass_ne_slash (c : Char) (h : inOldClass c = true) : ¬ c = '/' := by
  intro hc
  rw [hc] at h
  exact absurd h (by decide)

theorem inOldClass_not_digit (c : Char) (h : inOldClass c = true) : c.isDigit = false := by
  unfold inOldClass at h
  rw [Bool.or_eq_true] at h
  rcases h with h1 | h2
  · rw [Bool.and_eq_true] at h1
    obtain ⟨ha, -⟩ := h1
    have ha' : ('a' : Char) ≤ c := of_decide_eq_true ha
    cases hd : c.isDigit
    · rfl
    · exfalso
      unfold Char.isDigit at hd
      rw [Bool.and_eq_true] at hd
      obtain ⟨-, hle⟩ := hd
      have hle' : c.val ≤ 57 := of_decide_eq_true hle
      have h97 : (97 : UInt32) ≤ c.val := ha'
      exact absurd (UInt32.le_trans h97 hle') (by decide)
  · have hc : c = '-' := of_decide_eq_true h2
    rw [hc]
    rfl

theorem matchNewL_append_no_slash :
    ∀ l1 : List Char, (∀ c ∈ l1, ¬ c = '/') → ∀ l2, matchNewL (l1 ++ l2) = matchNewL l2
  | [], _, l2 => rfl
  | c :: t, h, l2 => by
    have hc : ¬ c = '/' := h c (List.mem_cons_self c t)
    simp only [List.cons_append, matchNewL, if_neg hc]
    exact matchNewL_append_no_slash t (fun d hd => h d (List.mem_cons_of_mem c hd)) l2

theorem matchNewL_no_slash (l : List Char) (h : ∀ c ∈ l, ¬ c = '/') :
    matchNewL l = none := by
  have h0 := matchNewL_append_no_slash l h []
  rw [List.append_nil] at h0
  rw [h0]
  rfl

theorem matchOldL_append_no_slash :
    ∀ l1 : List Char, (∀ c ∈ l1, ¬ c = '/') → ∀ l2, matchOldL (l1 ++ l2) = matchOldL l2
  | [], _, l2 => rfl
  | c :: t, h, l2 => by
    have hc : ¬ c = '/' := h c (List.mem_cons_self c t)
    simp only [List.cons_append, matchOldL, if_neg hc]
    exact matchOldL_append_no_slash t (fun d hd => h d (List.mem_cons_of_mem c hd)) l2

theorem takeWhile_append_all (p : Char → Bool) :
    ∀ l1 : List Char, (∀ c ∈ l1, p c = true) → ∀ l2 : List Char,
      List.takeWhile p (l1 ++ l2) = l1 ++ List.takeWhile p l2
  | [], _, l2 => rfl
  | c :: t, h, l2 => by
    have hc : p c = true := h c (List.mem_cons_self c t)
    simp only [List.cons_append, List.takeWhile_cons, if_pos hc]
    rw [takeWhile_append_all p t (fun d hd => h d (List.mem_cons_of_mem c hd)) l2]

theorem drop_takeWhile_length (p : Char → Bool) :
    ∀ l : List Char, l.drop (l.takeWhile p).length = l.dropWhile p
  | [] => rfl
  | c :: t => by
    by_cases hc : p c = true
    · simp only [List.takeWhile_cons, List.dropWhile_cons, if_pos hc, List.length_cons,
        List.drop_succ_cons]
      exact drop_takeWhile_length p t
    · simp only [List.takeWhile_cons, List.dropWhile_cons, if_neg hc, List.length_nil,
        List.drop_zero]

/-- Bare identifier with a version marker: the `v<digits>` suffix regex
strips exactly the trailing marker. -/
theorem stripVersionL_version (idc ds : List Char) (hne : ds ≠ [])
    (hdig : ∀ c ∈ ds, c.isDigit = true) :
    stripVersionL (idc ++ 'v' :: ds) = idc := by
  unfold stripVersionL
  dsimp only
  have hrev : (idc ++ 'v' :: ds).reverse = ds.reverse ++ 'v' :: idc.reverse := by
    rw [List.reverse_append, List.reverse_cons, List.append_assoc]
    rfl
  rw [hrev]
  have htw : List.takeWhile Char.isDigit (ds.reverse ++ 'v' :: idc.reverse) = ds.reverse := by
    rw [takeWhile_append_all Char.isDigit ds.reverse
      (fun c hc => hdig c (List.mem_reverse.mp hc)) _]
    simp [List.takeWhile_cons]
  rw [htw]
  have hemp : ds.reverse.isEmpty = false := by
    rw [Bool.eq_false_iff]
    intro hc
    exact hne (by simpa using List.isEmpty_iff.mp hc)
  rw [hemp]
  simp only [Bool.false_eq_true, if_false]
  rw [List.drop_left]
  simp

/-- Bare identifier without a version marker: when the character before the
trailing digit run is not `v`, the regex leaves the string unchanged. -/
theorem stripVersionL_no_version (idc : List Char)
    (hguard : ∀ c, (idc.reverse.dropWhile Char.isDigit).head? = some c → ¬ c = 'v') :
    stripVersionL idc = idc := by
  unfold stripVersionL
  dsimp only
  by_cases hds : (idc.reverse.takeWhile Char.isDigit).isEmpty = true
  · rw [hds]
    simp
  · rw [Bool.eq_false_iff.mpr hds]
    simp only [Bool.false_eq_true, if_false]
    rw [drop_takeWhile_length]
    split
    · rename_i rest heq
      exact absurd rfl (hguard 'v' (by rw [heq]; rfl))
    · rfl

/-- Claim C9: `get_paper` and `get_papers` clean every input identifier via
`_clean_arxiv_id` before building the `id_list` parameter, and
`_clean_arxiv_id` always reduces to the bare, unversioned identifier: the two
spec examples hold; a bare identifier with a `v<digits>` suffix loses exactly
the suffix and one without such a suffix is unchanged; a new-format URL
yields the `4digits.4-5digits` identifier; and an old-format URL yields the
`category/7digits` identifier. -/
theorem c9_clean_arxiv_id :
    (∀ s : String, cleanArxivId s = ⟨cleanArxivIdL s.data⟩) ∧
    (∀ s : String, getPaperParams s =
      [("id_list", .jstr (cleanArxivId s)), ("max_results", .jnat 1)]) ∧
    (∀ ids : List String, getPapersParams ids =
      [("id_list", .jstr (String.intercalate "," (ids.map cleanArxivId))),
       ("max_results", .jnat ids.length)]) ∧
    (cleanArxivId "https://arxiv.org/abs/2301.12345v2" = "2301.12345" ∧
      cleanArxivId "quant-ph/0201082v1" = "quant-ph/0201082") ∧
    (∀ idc ds : List Char,
        containsSub (idc ++ 'v' :: ds) ("arxiv.org".data) = false → ds ≠ [] →
        (∀ c ∈ ds, c.isDigit = true) →
        cleanArxivIdL (idc ++ 'v' :: ds) = idc) ∧
    (∀ idc : List Char,
        containsSub idc ("arxiv.org".data) = false →
        (∀ c, (idc.reverse.dropWhile Char.isDigit).head? = some c → ¬ c = 'v') →
        cleanArxivIdL idc = idc) ∧
    (∀ d1 d2 d3 d4 e1 e2 e3 e4 : Char, ∀ tail : List Char,
        d1.isDigit = true → d2.isDigit = true → d3.isDigit = true → d4.isDigit = true →
        e1.isDigit = true → e2.isDigit = true → e3.isDigit = true → e4.isDigit = true →
        (∀ t ∈ tail.head?, t.isDigit = false) →
        cleanArxivIdL ("https://arxiv.org/abs/".data ++
            [d1, d2, d3, d4, '.', e1, e2, e3, e4] ++ tail) =
          [d1, d2, d3, d4, '.', e1, e2, e3, e4]) ∧
    (∀ d1 d2 d3 d4 e1 e2 e3 e4 e5 : Char, ∀ tail : List Char,
        d1.isDigit = true → d2.isDigit = true → d3.isDigit = true → d4.isDigit = true →
        e1.isDigit = true → e2.isDigit = true → e3.isDigit = true → e4.isDigit = true →
        e5.isDigit = true →
        cleanArxivIdL ("https://arxiv.org/abs/".data ++
            [d1, d2, d3, d4, '.', e1, e2, e3, e4, e5] ++ tail) =
          [d1, d2, d3, d4, '.', e1, e2, e3, e4, e5]) ∧
    (∀ (c0 : Char) (cat' : List Char) (g1 g2 g3 g4 g5 g6 g7 : Char) (tail : List Char),
        inOldClass c0 = true → (∀ c ∈ cat', inOldClass c = true) →
        g1.isDigit = true → g2.isDigit = true → g3.isDigit = true → g4.isDigit = true →
        g5.isDigit = true → g6.isDigit = true → g7.isDigit = true →
        (∀ c ∈ tail, ¬ c = '/') →
        cleanArxivIdL ("https://arxiv.org/abs/".data ++ (c0 :: cat') ++
            '/' :: [g1, g2, g3, g4, g5, g6, g7] ++ tail) =
          (c0 :: cat') ++ '/' :: [g1, g2, g3, g4, g5, g6, g7]) := by
  refine ⟨fun _ => rfl, fun _ => rfl, fun _ => rfl, ⟨by decide, by decide⟩,
    ?_, ?_, ?_, ?_, ?_⟩
  · intro idc ds hsub hne hdig
    unfold cleanArxivIdL
    rw [hsub]
    simp only [Bool.false_eq_true, if_false]
    rw [stripVersionL_version idc ds hne hdig]
  · intro idc hsub hguard
    unfold cleanArxivIdL
    rw [hsub]
    simp only [Bool.false_eq_true, if_false]
    rw [stripVersionL_no_version idc hguard]
  · intro d1 d2 d3 d4 e1 e2 e3 e4 tail h1 h2 h3 h4 h5 h6 h7 h8 htail
    have hsub : containsSub ("https://arxiv.org/abs/".data ++
        [d1, d2, d3, d4, '.', e1, e2, e3, e4] ++ tail) ("arxiv.org".data) = true := by
      simp [containsSub, List.isPrefixOf]
    have hmn : matchNewL ("https://arxiv.org/abs/".data ++
        [d1, d2, d3, d4, '.', e1, e2, e3, e4] ++ tail) =
        some [d1, d2, d3, d4, '.', e1, e2, e3, e4] := by
      cases tail with
      | nil => simp [matchNewL, tryNew, h1, h2, h3, h4, h5, h6, h7, h8]
      | cons t0 t' =>
        have ht0 : t0.isDigit = false := htail t0 rfl
        simp [matchNewL, tryNew, h1, h2, h3, h4, h5, h6, h7, h8, ht0]
    unfold cleanArxivIdL
    rw [hsub, hmn]
    simp
  · intro d1 d2 d3 d4 e1 e2 e3 e4 e5 tail h1 h2 h3 h4 h5 h6 h7 h8 h9
    have hsub : containsSub ("https://arxiv.org/abs/".data ++
        [d1, d2, d3, d4, '.', e1, e2, e3, e4, e5] ++ tail) ("arxiv.org".data) = true := by
      simp [containsSub, List.isPrefixOf]
    have hmn : matchNewL ("https://arxiv.org/abs/".data ++
        [d1, d2, d3, d4, '.', e1, e2, e3, e4, e5] ++ tail) =
        some [d1, d2, d3, d4, '.', e1, e2, e3, e4, e5] := by
      simp [matchNewL, tryNew, h1, h2, h3, h4, h5, h6, h7, h8, h9]
    unfold cleanArxivIdL
    rw [hsub, hmn]
    simp
  · intro c0 cat' g1 g2 g3 g4 g5 g6 g7 tail hc0 hcat hg1 hg2 hg3 hg4 hg5 hg6 hg7 htail
    have hc0d : c0.isDigit = false := inOldClass_not_digit c0 hc0
    have hc0s : ¬ c0 = '/' := inOldClass_ne_slash c0 hc0
    have hg5d : ¬ g5 = '.' := isDigit_ne_dot g5 hg5
    have hsub : containsSub ("https://arxiv.org/abs/".data ++ (c0 :: cat') ++
        '/' :: [g1, g2, g3, g4, g5, g6, g7] ++ tail) ("arxiv.org".data) = true := by
      simp [containsSub, List.isPrefixOf]
    have hgall : ∀ c ∈ [g1, g2, g3, g4, g5, g6, g7], c.isDigit = true := by
      intro c hc
      simp only [List.mem_cons, List.not_mem_nil, or_false] at hc
      rcases hc with rfl | rfl | rfl | rfl | rfl | rfl | rfl
      · exact hg1
      · exact hg2
      · exact hg3
      · exact hg4
      · exact hg5
      · exact hg6
      · exact hg7
    have hnoslash : ∀ c ∈ [g1, g2, g3, g4, g5, g6, g7] ++ tail, ¬ c = '/' := by
      intro c hc
      rcases List.mem_append.mp hc with hin | hin
      · exact isDigit_ne_slash c (hgall c hin)
      · exact htail c hin
    have hcatns : ∀ c ∈ cat', ¬ c = '/' := fun c hc => inOldClass_ne_slash c (hcat c hc)
    have hmn : matchNewL ("https://arxiv.org/abs/".data ++ (c0 :: cat') ++
        '/' :: [g1, g2, g3, g4, g5, g6, g7] ++ tail) = none := by
      have hstep1 : matchNewL ("https://arxiv.org/abs/".data ++ (c0 :: cat') ++
          '/' :: [g1, g2, g3, g4, g5, g6, g7] ++ tail) =
          matchNewL (cat' ++ '/' :: [g1, g2, g3, g4, g5, g6, g7] ++ tail) := by
        simp [matchNewL, tryNew, hc0d, hc0s]
      rw [hstep1]
      rw [show cat' ++ '/' :: [g1, g2, g3, g4, g5, g6, g7] ++ tail =
        cat' ++ ('/' :: [g1, g2, g3, g4, g5, g6, g7] ++ tail) from by
          simp [List.append_assoc]]
      rw [matchNewL_append_no_slash cat' hcatns _]
      have hstep2 : matchNewL ('/' :: [g1, g2, g3, g4, g5, g6, g7] ++ tail) =
          matchNewL ([g1, g2, g3, g4, g5, g6, g7] ++ tail) := by
        simp [matchNewL, tryNew, hg1, hg2, hg3, hg4, hg5d]
      rw [hstep2]
      exact matchNewL_no_slash _ hnoslash
    have htw : List.takeWhile inOldClass
        (cat' ++ '/' :: g1 :: g2 :: g3 :: g4 :: g5 :: g6 :: g7 :: tail) = cat' := by
      rw [takeWhile_append_all inOldClass cat' hcat _]
      have ccslash0 : inOldClass '/' = false := by decide
      simp [List.takeWhile_cons, ccslash0]
    have hdr : List.drop cat'.length
        (cat' ++ '/' :: g1 :: g2 :: g3 :: g4 :: g5 :: g6 :: g7 :: tail) =
        '/' :: g1 :: g2 :: g3 :: g4 :: g5 :: g6 :: g7 :: tail :=
      List.drop_left cat' _
    have cca : inOldClass 'a' = true := by decide
    have ccr : inOldClass 'r' = true := by decide
    have ccx : inOldClass 'x' = true := by decide
    have cci : inOldClass 'i' = true := by decide
    have ccv : inOldClass 'v' = true := by decide
    have ccb : inOldClass 'b' = true := by decide
    have ccs : inOldClass 's' = true := by decide
    have ccdot : inOldClass '.' = false := by decide
    have ccslash : inOldClass '/' = false := by decide
    have hds : List.take 7 (g1 :: g2 :: g3 :: g4 :: g5 :: g6 :: g7 :: tail) =
        [g1, g2, g3, g4, g5, g6, g7] := by
      have h7 := List.take_left [g1, g2, g3, g4, g5, g6, g7] tail
      set_option linter.unnecessarySimpa false in
      simpa using h7
    have hlen : 7 ≤ (g1 :: g2 :: g3 :: g4 :: g5 :: g6 :: g7 :: tail).length := by
      simp
    have hmo : matchOldL ("https://arxiv.org/abs/".data ++ (c0 :: cat') ++
        '/' :: [g1, g2, g3, g4, g5, g6, g7] ++ tail) =
        some ((c0 :: cat') ++ '/' :: [g1, g2, g3, g4, g5, g6, g7]) := by
      simp [matchOldL, tryOld, List.takeWhile_cons, cca, ccr, ccx, cci, ccv, ccb, ccs,
        ccdot, ccslash, hc0, hc0d, hc0s, htw, hdr, hds, hlen, hg1, hg2, hg3, hg4, hg5,
        hg6, hg7]
    unfold cleanArxivIdL
    rw [hsub, hmn, hmo]
    rfl

theorem c9_witness :
    ((containsSub ("2301.1234".data ++ 'v' :: ['2']) ("arxiv.org".data) = false ∧
        (['2'] : List Char) ≠ [] ∧ (∀ c ∈ (['2'] : List Char), c.isDigit = true)) ∧
      cleanArxivIdL ("2301.1234".data ++ 'v' :: ['2']) = "2301.1234".data) ∧
    ((containsSub ("2301.1234".data) ("arxiv.org".data) = false) ∧
      cleanArxivIdL ("2301.1234".data) = "2301.1234".data) ∧
    cleanArxivIdL ("https://arxiv.org/abs/".data ++
        ['2', '3', '0', '1', '.', '1', '2', '3', '4'] ++ 'v' :: ['2']) =
      ['2', '3', '0', '1', '.', '1', '2', '3', '4'] ∧
    cleanArxivIdL ("https://arxiv.org/abs/".data ++
        ['2', '3', '0', '1', '.', '1', '2', '3', '4', '5'] ++ []) =
      ['2', '3', '0', '1', '.', '1', '2', '3', '4', '5'] ∧
    cleanArxivIdL ("https://arxiv.org/abs/".data ++ ('h' :: "ep-th".data) ++
        '/' :: ['9', '9', '0', '1', '0', '0', '1'] ++ ('v' :: ['1'])) =
      ('h' :: "ep-th".data) ++ '/' :: ['9', '9', '0', '1', '0', '0', '1'] :=
  ⟨⟨⟨by decide, by decide, by decide⟩,
      c9_clean_arxiv_id.2.2.2.2.1 ("2301.1234".data) ['2'] (by decide) (by decide)
        (by decide)⟩,
    ⟨by decide,
      c9_clean_arxiv_id.2.2.2.2.2.1 ("2301.1234".data) (by decide) (by decide)⟩,
    c9_clean_arxiv_id.2.2.2.2.2.2.1 '2' '3' '0' '1' '1' '2' '3' '4' ('v' :: ['2'])
      (by decide) (by decide) (by decide) (by decide) (by decide) (by decide) (by decide)
      (by decide) (by decide),
    c9_clean_arxiv_id.2.2.2.2.2.2.2.1 '2' '3' '0' '1' '1' '2' '3' '4' '5' []
      (by decide) (by decide) (by decide) (by decide) (by decide) (by decide) (by decide)
      (by decide) (by decide),
    c9_clean_arxiv_id.2.2.2.2.2.2.2.2 'h' ("ep-th".data) '9' '9' '0' '1' '0' '0' '1'
      ('v' :: ['1']) (by decide) (by decide) (by decide) (by decide) (by decide)
      (by decide) (by decide) (by decide) (by decide) (by decide)⟩

/-! ### C5: cache-key fingerprinting -/

theorem digitChar10_val : ∀ d < 10, (digitChar10 d).toNat - 48 = d := by decide

theorem renderNatL_leftInv (k : Nat) :
    Nat.ofDigits 10 (((renderNatL k).map fun c => c.toNat - 48).reverse) = k := by
  by_cases hk : k = 0
  · subst hk; rfl
  · unfold renderNatL
    rw [if_neg hk, List.map_map, List.map_reverse, List.reverse_reverse]
    have hmap : (Nat.digits 10 k).map ((fun c => c.toNat - 48) ∘ digitChar10) =
        Nat.digits 10 k := by
      have hid : (Nat.digits 10 k).map id = Nat.digits 10 k := List.map_id _
      rw [show ((Nat.digits 10 k).map ((fun c => c.toNat - 48) ∘ digitChar10) =
            Nat.digits 10 k) =
          ((Nat.digits 10 k).map ((fun c => c.toNat - 48) ∘ digitChar10) =
            (Nat.digits 10 k).map id) from by rw [hid]]
      apply List.map_congr_left
      intro d hd
      exact digitChar10_val d (Nat.digits_lt_base (by decide) hd)
    rw [hmap, Nat.ofDigits_digits]

theorem renderNatL_inj {n m : Nat} (h : renderNatL n = renderNatL m) : n = m := by
  have h1 := renderNatL_leftInv n
  rw [h, renderNatL_leftInv] at h1
  exact h1.symm

theorem processBlock_bound (st : Nat × Nat × Nat × Nat) (b : List Nat) :
    (processBlock st b).1 < M32 ∧ (processBlock st b).2.1 < M32 ∧
      (processBlock st b).2.2.1 < M32 ∧ (processBlock st b).2.2.2 < M32 := by
  unfold processBlock add32
  dsimp only
  refine ⟨?_, ?_, ?_, ?_⟩ <;> exact Nat.mod_lt _ (by decide)

theorem foldl_processBlock_bound :
    ∀ (bs : List (List Nat)) (st : Nat × Nat × Nat × Nat),
      st.1 < M32 → st.2.1 < M32 → st.2.2.1 < M32 → st.2.2.2 < M32 →
      (bs.foldl processBlock st).1 < M32 ∧ (bs.foldl processBlock st).2.1 < M32 ∧
        (bs.foldl processBlock st).2.2.1 < M32 ∧ (bs.foldl processBlock st).2.2.2 < M32
  | [], _, h1, h2, h3, h4 => ⟨h1, h2, h3, h4⟩
  | b :: bs, st, _, _, _, _ => by
    rw [List.foldl_cons]
    obtain ⟨g1, g2, g3, g4⟩ := processBlock_bound st b
    exact foldl_processBlock_bound bs _ g1 g2 g3 g4

theorem md5Words_bound (msg : List Nat) :
    (md5Words msg).1 < M32 ∧ (md5Words msg).2.1 < M32 ∧
      (md5Words msg).2.2.1 < M32 ∧ (md5Words msg).2.2.2 < M32 := by
  unfold md5Words
  exact foldl_processBlock_bound _ _ (by decide) (by decide) (by decide) (by decide)

theorem sortParams_perm_eq (p q : List (String × JVal))
    (hperm : p.Perm q) (hnd : (p.map Prod.fst).Nodup) :
    sortParams p = sortParams q := by
  have hp1 : (sortParams p).Perm p := List.perm_insertionSort keyLE p
  have hq1 : (sortParams q).Perm q := List.perm_insertionSort keyLE q
  have hsp : List.Sorted keyLE (sortParams p) := List.sorted_insertionSort keyLE p
  have hsq : List.Sorted keyLE (sortParams q) := List.sorted_insertionSort keyLE q
  have hndq : (q.map Prod.fst).Nodup := (hperm.map Prod.fst).nodup_iff.mp hnd
  have hndsp : (sortParams p).Pairwise fun a b => a.1 ≠ b.1 :=
    List.pairwise_map.mp ((hp1.map Prod.fst).nodup_iff.mpr hnd)
  have hndsq : (sortParams q).Pairwise fun a b => a.1 ≠ b.1 :=
    List.pairwise_map.mp ((hq1.map Prod.fst).nodup_iff.mpr hndq)
  have hltp : List.Sorted keyLT (sortParams p) :=
    (hsp.and hndsp).imp fun h => lt_of_le_of_ne h.1 h.2
  have hltq : List.Sorted keyLT (sortParams q) :=
    (hsq.and hndsq).imp fun h => lt_of_le_of_ne h.1 h.2
  exact List.eq_of_perm_of_sorted (hp1.trans (hperm.trans hq1.symm)) hltp hltq

/-- C5 counterexample: the second half of the claim — "for every two parameter
sets differing in the value of max_results, the fingerprints differ" — is
false: md5 maps infinitely many distinct serializations into the finite
128-bit digest space, so by pigeonhole there exist two parameter sets that
agree on every key and differ only in the value of `max_results` yet have
identical fingerprints. -/
theorem c5_counterexample :
    ∃ n m : Nat, n ≠ m ∧
      getCacheKey [("max_results", JVal.jnat n)] =
        getCacheKey [("max_results", JVal.jnat m)] := by
  obtain ⟨n, m, hne, heq⟩ := Finite.exists_ne_map_eq_of_infinite
    (fun n : Nat =>
      ((⟨(md5Words (strBytes (dumpsParams [("max_results", JVal.jnat n)]))).1,
          (md5Words_bound _).1⟩ : Fin M32),
       (⟨(md5Words (strBytes (dumpsParams [("max_results", JVal.jnat n)]))).2.1,
          (md5Words_bound _).2.1⟩ : Fin M32),
       (⟨(md5Words (strBytes (dumpsParams [("max_results", JVal.jnat n)]))).2.2.1,
          (md5Words_bound _).2.2.1⟩ : Fin M32),
       (⟨(md5Words (strBytes (dumpsParams [("max_results", JVal.jnat n)]))).2.2.2,
          (md5Words_bound _).2.2.2⟩ : Fin M32)))
  refine ⟨n, m, hne, ?_⟩
  simp only [Prod.mk.injEq, Fin.mk.injEq] at heq
  have hw : md5Words (strBytes (dumpsParams [("max_results", JVal.jnat n)])) =
      md5Words (strBytes (dumpsParams [("max_results", JVal.jnat m)])) := by
    obtain ⟨h1, h2, h3, h4⟩ := heq
    exact Prod.ext h1 (Prod.ext h2 (Prod.ext h3 h4))
  unfold getCacheKey md5hex md5BytesOf
  rw [hw]

/-- C5 (amended): fingerprinting is deterministic and order-independent —
for parameter lists with distinct keys that are permutations of each other,
the cache keys are identical; and for the parameter shapes the client
actually builds, differing (post-clamp) max_results values yield different
serialized parameter strings, i.e. different md5 preimages (the digests
themselves can collide, see the counterexample). -/
theorem c5_fingerprint :
    (∀ p q : List (String × JVal), p.Perm q → (p.map Prod.fst).Nodup →
        getCacheKey p = getCacheKey q) ∧
    (∀ (query sb so : String) (start m1 m2 : Nat),
        min m1 2000 ≠ min m2 2000 →
        dumpsParams (searchParams query start m1 sb so) ≠
          dumpsParams (searchParams query start m2 sb so)) ∧
    (∀ (ids : String) (n1 n2 : Nat), n1 ≠ n2 →
        dumpsParams [("id_list", JVal.jstr ids), ("max_results", JVal.jnat n1)] ≠
          dumpsParams [("id_list", JVal.jstr ids), ("max_results", JVal.jnat n2)]) := by
  refine ⟨?_, ?_, ?_⟩
  · intro p q hperm hnd
    unfold getCacheKey dumpsParams
    rw [sortParams_perm_eq p q hperm hnd]
  · intro query sb so start m1 m2 hne heq
    apply hne
    apply renderNatL_inj
    have hd := congrArg String.data heq
    simp +decide [dumpsParams, sortParams, searchParams, List.insertionSort,
      List.orderedInsert, keyLE, renderPiece, renderJVal, joinPieces, escStr,
      escChar, List.cons.injEq, List.append_assoc] at hd
    exact hd
  · intro ids n1 n2 hne heq
    apply hne
    apply renderNatL_inj
    have hd := congrArg String.data heq
    simp +decide [dumpsParams, sortParams, List.insertionSort,
      List.orderedInsert, keyLE, renderPiece, renderJVal, joinPieces, escStr,
      escChar, List.cons.injEq, List.append_assoc] at hd
    exact hd

theorem c5_witness :
    getCacheKey [("a", JVal.jnat 1), ("b", JVal.jnat 2)] =
      getCacheKey [("b", JVal.jnat 2), ("a", JVal.jnat 1)] ∧
    dumpsParams (searchParams "x" 0 1 "r" "d") ≠
      dumpsParams (searchParams "x" 0 2 "r" "d") ∧
    dumpsParams [("id_list", JVal.jstr "i"), ("max_results", JVal.jnat 1)] ≠
      dumpsParams [("id_list", JVal.jstr "i"), ("max_results", JVal.jnat 2)] :=
  ⟨c5_fingerprint.1 _ _ (List.Perm.swap _ _ _) (by decide),
   c5_fingerprint.2.1 "x" "r" "d" 0 1 2 (by decide),
   c5_fingerprint.2.2 "i" 1 2 (by decide)⟩

end Arxiv
